import Mathlib

/-!
# columnmodel: the collision strategies of `include/collision.h`

A shallow embedding of `NoCollisions`, `HallCollisions`, the nested
`Collider` and the layer partitioner `sort_layer` / `sortsps` of
`collision.h`.

Conventions of the embedding

* a C++ `double` is a rational number and its arithmetic is exact; the `int`
  of `SpMassTendencies::dN` is an integer without overflow;
* a `std::vector` is a `List`; `v[i]` is `List.getD v i default` and the
  assignment `v[i] = x` is `List.set v i x`;
* an iterator is a position in its container: the pair `(first, last)` of
  `_collide` is a pair of positions in the ensemble, the output iterator `out`
  is a position in the tendency vector;
* the collaborators that `collision.h` only includes (`constants.h`,
  `sedimentation.h`, `efficiencies.h`, `superparticle.h`, `grid.h`) are
  parameters: see `Env`, `Superparticle` and `Grid`.
-/

namespace ColumnModel

/-! ## Data model -/

/-- Modelled from the spec: `constants.h`, `sedimentation.h` and
`efficiencies.h` are not among the sources. `PI` and `RHO_H2O` are the two
constants `collision.h` reads, `fall_speed` is `Sedimentation::fall_speed`
(the fall-speed provider, a pure function of the radius) and
`collision_efficiency` is `Efficiencies::collision_efficiency` (the
efficiency provider, a pure function of a radius in micrometres and a radius
ratio). -/
structure Env where
  PI : ℚ
  RHO_H2O : ℚ
  fall_speed : ℚ → ℚ
  collision_efficiency : ℚ → ℚ → ℚ

/-- Modelled from the spec: `superparticle.h` is not among the sources. The
fields are the members `collision.h` reads: water content `qc`, height `z`,
multiplicity `N` (held as a `double`, the type under which `thermodynamic.h`
passes multiplicities), the flag `is_nucleated`, and the derived quantity
`radius()`, held as a field. -/
structure Superparticle where
  qc : ℚ
  z : ℚ
  N : ℚ
  is_nucleated : Bool
  radius : ℚ
deriving DecidableEq

instance : Inhabited Superparticle := ⟨⟨0, 0, 0, false, 0⟩⟩

/-- Modelled from the spec: `grid.h` is not among the sources. `n_lay` is the
number of layers, `lvls` is what `getlvls()` returns (the level heights) and
`getlayindex` maps a height to its layer index. -/
structure Grid where
  n_lay : Nat
  lvls : List ℚ
  getlayindex : ℚ → Nat

/-- The record `SpMassTendencies { double dqc; int dN; }`. -/
structure SpMassTendencies where
  dqc : ℚ
  dN : ℤ
deriving DecidableEq

/-- The value-initialised tendency, `dqc = 0` and `dN = 0`: what
`std::vector<SpMassTendencies>(n)` holds in each of its `n` slots. -/
def SpMassTendencies.zero : SpMassTendencies := ⟨0, 0⟩

instance : Inhabited SpMassTendencies := ⟨SpMassTendencies.zero⟩

/-! ## `NoCollisions` -/

/-- `NoCollisions::collide`: `std::vector<SpMassTendencies>(sps.size())`. -/
def NoCollisions.collide (sps : List Superparticle) (_grid : Grid) (_dt : ℚ) :
    List SpMassTendencies :=
  List.replicate sps.length SpMassTendencies.zero

/-! ## `HallCollisions` -/

/-- `sp_zcmp(sp, z)`: `sp.z < z`. -/
def sp_zcmp (sp : Superparticle) (z : ℚ) : Bool := decide (sp.z < z)

/-- The loop of `std::lower_bound(first, last, val, sp_zcmp)`: while `len > 0`,
probe the middle of the remaining range of length `len` that starts at
`first`. The first argument bounds the number of iterations. -/
def lower_bound_loop (sps : List Superparticle) (val : ℚ) : Nat → Nat → Nat → Nat
  | 0, first, _ => first
  | fuel + 1, first, len =>
    if len = 0 then first
    else
      let half := len / 2
      let middle := first + half
      if sp_zcmp (sps.getD middle default) val then
        lower_bound_loop sps val fuel (middle + 1) (len - half - 1)
      else
        lower_bound_loop sps val fuel first half

/-- `std::lower_bound(first, last, val, sp_zcmp)` on positions of `sps`. The
length of the range halves in every iteration, so `last - first` iterations
are enough. -/
def lower_bound (sps : List Superparticle) (first last : Nat) (val : ℚ) : Nat :=
  lower_bound_loop sps val (last - first) first (last - first)

/-- `operator<` of `std::pair<double, size_t>`, negated and flipped: `a` may
stand before `b` in the order `std::sort(ridx.begin(), ridx.end())`
establishes. -/
def ridx_le (a b : ℚ × Nat) : Prop := a.1 < b.1 ∨ (a.1 = b.1 ∧ a.2 ≤ b.2)

instance : DecidableRel ridx_le := fun a b => by
  unfold ridx_le
  exact inferInstance

instance : IsTotal (ℚ × Nat) ridx_le := ⟨fun a b => by
  unfold ridx_le
  rcases lt_trichotomy a.1 b.1 with h | h | h
  · exact Or.inl (Or.inl h)
  · rcases Nat.le_total a.2 b.2 with h2 | h2
    · exact Or.inl (Or.inr ⟨h, h2⟩)
    · exact Or.inr (Or.inr ⟨h.symm, h2⟩)
  · exact Or.inr (Or.inl h)⟩

instance : IsTrans (ℚ × Nat) ridx_le := ⟨fun a b c hab hbc => by
  unfold ridx_le at *
  rcases hab with h | ⟨h, h2⟩
  · rcases hbc with h' | ⟨h', _⟩
    · exact Or.inl (lt_trans h h')
    · exact Or.inl (h' ▸ h)
  · rcases hbc with h' | ⟨h', h2'⟩
    · exact Or.inl (h ▸ h')
    · exact Or.inr ⟨h.trans h', le_trans h2 h2'⟩⟩

instance : IsAntisymm (ℚ × Nat) ridx_le := ⟨fun a b hab hba => by
  unfold ridx_le at *
  rcases hab with h | ⟨h, h2⟩
  · rcases hba with h' | ⟨h', _⟩
    · exact absurd h (lt_asymm h')
    · exact absurd h (by rw [h']; exact lt_irrefl _)
  · rcases hba with h' | ⟨_, h2'⟩
    · exact absurd h' (by rw [h]; exact lt_irrefl _)
    · exact Prod.ext h (le_antisymm h2 h2')⟩

/-- The members of `HallCollisions::Collider`. The slice iterator `sps` is
the ensemble together with the position `first`; `out` is the position of the
output iterator in the tendency vector; `sedimentation` and `efficiencies`
are in `env`. -/
structure Collider where
  ridx : List (ℚ × Nat)
  fall_speeds : List ℚ
  sps : List Superparticle
  first : Nat
  out : Nat
  dt : ℚ
  pc : Nat
  env : Env

/-- The constructor `Collider(first, last, out, dt, sedimentation,
efficiencies)`: `ridx` pairs every radius of the slice with its distance from
`first` and is sorted as pairs. The pair order is total on pairs with
different second components, so the sorted sequence does not depend on the
sorting algorithm. `fall_speeds` is the storage that `std::transform` fills
through `fall_speeds.begin()` after `reserve(pc)`, in the order of `ridx`: the
values that the accesses `fall_speeds[i]` read. -/
def Collider.new (env : Env) (sps : List Superparticle) (first last out : Nat) (dt : ℚ) :
    Collider :=
  let pc := last - first
  let ridx := List.insertionSort ridx_le
    ((List.range pc).map fun k => ((sps.getD (first + k) default).radius, k))
  { ridx := ridx
    fall_speeds := ridx.map fun ri => env.fall_speed ri.1
    sps := sps
    first := first
    out := out
    dt := dt
    pc := pc
    env := env }

/-- `hall_collision_kernal(r, R, fs, FS)`, the returned value:
`PI * (R + r) * (R + r) * std::abs(FS - fs) * collision_efficiency(R * 1.e6, r / R)`. -/
def hall_collision_kernal (env : Env) (r R fs FS : ℚ) : ℚ :=
  env.PI * (R + r) * (R + r) * |FS - fs| * env.collision_efficiency (R * 1000000) (r / R)

/-- The access `sps[isp]` of the Collider. -/
def Collider.sp (c : Collider) (isp : Nat) : Superparticle :=
  c.sps.getD (c.first + isp) default

/-- The access `ridx[i]` of the Collider. -/
def Collider.ri (c : Collider) (i : Nat) : ℚ × Nat := c.ridx.getD i (0, 0)

/-- The access `fall_speeds[i]` of the Collider. -/
def Collider.fs (c : Collider) (i : Nat) : ℚ := c.fall_speeds.getD i 0

/-- `Collider::weights(i)`: the floor of
`dt * (internal_collisions + external_collisions)`, in exact arithmetic. The
source returns the floored `double` as `int`; the value here is that `int`
where the `double` operations are exact and the floor lies in the range of
`int`. -/
def Collider.weights (c : Collider) (i : Nat) : ℤ :=
  let r := (c.ri i).1
  let isp := (c.ri i).2
  let internal_collisions :=
    -hall_collision_kernal c.env r r (c.fs i) (c.fs i) * (1 / 2) * (c.sp isp).N *
      ((c.sp isp).N - 1)
  let external_collisions :=
    (List.range' (i + 1) (c.pc - (i + 1))).foldl
      (fun acc j =>
        let R := (c.ri j).1
        let iSP := (c.ri j).2
        acc - hall_collision_kernal c.env r R (c.fs i) (c.fs j) * (c.sp isp).N * (c.sp iSP).N)
      0
  ⌊c.dt * (internal_collisions + external_collisions)⌋

/-- `Collider::mass(i)`. -/
def Collider.mass (c : Collider) (i : Nat) : ℚ :=
  let ri := (c.ri i).1
  let from_smaller :=
    (List.range i).foldl
      (fun acc j =>
        let rj := (c.ri j).1
        let jsp := (c.ri j).2
        acc + hall_collision_kernal c.env ri rj (c.fs i) (c.fs j) * (c.sp jsp).N * rj * rj * rj)
      0
  let from_larger :=
    (List.range' (i + 1) (c.pc - (i + 1))).foldl
      (fun acc j =>
        let rj := (c.ri j).1
        let jsp := (c.ri j).2
        acc - hall_collision_kernal c.env ri rj (c.fs i) (c.fs j) * (c.sp jsp).N * ri * ri * ri)
      0
  c.dt * (ri * ri * ri + from_smaller + from_larger)

/-- The access `out[isp]` of the Collider in the tendency vector `t`. -/
def Collider.outAt (c : Collider) (t : List SpMassTendencies) (isp : Nat) : SpMassTendencies :=
  t.getD (c.out + isp) default

/-- The particle at the sorted position `i`, `sps[ridx[i].second]`. -/
def Collider.particle (c : Collider) (i : Nat) : Superparticle := c.sp (c.ri i).2

/-- The body of the loop of `Collider::calculate` for the sorted position `i`:
first `out[isp].dN = weights(i)`, then `out[isp].dqc = ...`, which reads
`out[isp].dN` back. -/
def Collider.calculate_step (c : Collider) (t : List SpMassTendencies) (i : Nat) :
    List SpMassTendencies :=
  let isp := (c.ri i).2
  let t1 := t.set (c.out + isp) { c.outAt t isp with dN := c.weights i }
  t1.set (c.out + isp)
    { c.outAt t1 isp with
      dqc := 4 / 3 * c.env.PI * c.env.RHO_H2O * ((c.sp isp).N + (c.outAt t1 isp).dN) *
          c.mass i / (1 - (c.outAt t1 isp).dN / (c.sp isp).N) - (c.sp isp).qc }

/-- `Collider::calculate()`: the loop over the sorted positions `0 .. pc - 2`,
then the write of `dqc` for the position `pc - 1`. -/
def Collider.calculate (c : Collider) (t : List SpMassTendencies) : List SpMassTendencies :=
  let t1 := (List.range (c.pc - 1)).foldl c.calculate_step t
  let isp := (c.ri (c.pc - 1)).2
  t1.set (c.out + isp) { c.outAt t1 isp with dqc := c.mass (c.pc - 1) }

/-- `HallCollisions::_collide(first, last, out, dt)` on the tendency vector
`t`: nothing for fewer than two particles, else the Collider is built and
run. -/
def _collide (env : Env) (sps : List Superparticle) (first last : Nat)
    (t : List SpMassTendencies) (out : Nat) (dt : ℚ) : List SpMassTendencies :=
  let pc := last - first
  if pc < 2 then t
  else (Collider.new env sps first last out dt).calculate t

/-- One iteration of the loop over the levels in `HallCollisions::collide`:
the state is `it1` and the tendency vector. -/
def collide_step (env : Env) (sps : List Superparticle) (dt : ℚ)
    (st : Nat × List SpMassTendencies) (lvl : ℚ) : Nat × List SpMassTendencies :=
  let it1 := st.1
  let it2 := lower_bound sps it1 sps.length lvl
  (it2, _collide env sps it1 it2 st.2 it1 dt)

/-- `HallCollisions::collide(sps, grid, dt)`. -/
def HallCollisions.collide (env : Env) (sps : List Superparticle) (grid : Grid) (dt : ℚ) :
    List SpMassTendencies :=
  let tendencies := List.replicate sps.length SpMassTendencies.zero
  match grid.lvls with
  | [] => tendencies
  | lvl0 :: rest =>
    let it1 := lower_bound sps 0 sps.length lvl0
    (rest.foldl (collide_step env sps dt) (it1, tendencies)).2

/-! ## The calls of `collide`, the arguments of the efficiency provider and
the fall-speed vector -/

/-- The calls `_collide(it1, it2, tit1, dt)` that the loop over the levels of
`HallCollisions::collide` makes, as triples `(it1, it2, tit1)` of positions,
for the levels `lvls` still to come and the current `it1`. -/
def collide_slices (sps : List Superparticle) : Nat → List ℚ → List (Nat × Nat × Nat)
  | _, [] => []
  | it1, lvl :: rest =>
    let it2 := lower_bound sps it1 sps.length lvl
    (it1, it2, it1) :: collide_slices sps it2 rest

/-- The calls `_collide(it1, it2, tit1, dt)` of `HallCollisions::collide`, in
the order of the layers. -/
def HallCollisions.collide_calls (sps : List Superparticle) (grid : Grid) :
    List (Nat × Nat × Nat) :=
  match grid.lvls with
  | [] => []
  | lvl0 :: rest => collide_slices sps (lower_bound sps 0 sps.length lvl0) rest

/-- The two arguments `(R * 1.e6, r / R)` that `hall_collision_kernal(r, R, fs, FS)`
passes to `collision_efficiency`. -/
def efficiency_args (r R : ℚ) : ℚ × ℚ := (R * 1000000, r / R)

/-- The efficiency arguments of the kernel evaluations of the loop of
`weights(i)` over the positions `j > i`, in the order of the loop. -/
def Collider.weights_efficiency_args (c : Collider) (i : Nat) : List (ℚ × ℚ) :=
  (List.range' (i + 1) (c.pc - (i + 1))).map fun j => efficiency_args (c.ri i).1 (c.ri j).1

/-- The efficiency arguments of the kernel evaluations of the first loop of
`mass(i)`, `from_smaller`, over the positions `j < i`. -/
def Collider.from_smaller_efficiency_args (c : Collider) (i : Nat) : List (ℚ × ℚ) :=
  (List.range i).map fun j => efficiency_args (c.ri i).1 (c.ri j).1

/-- The efficiency arguments of the kernel evaluations of the second loop of
`mass(i)`, `from_larger`, over the positions `j > i`. -/
def Collider.from_larger_efficiency_args (c : Collider) (i : Nat) : List (ℚ × ℚ) :=
  (List.range' (i + 1) (c.pc - (i + 1))).map fun j => efficiency_args (c.ri i).1 (c.ri j).1

/-- A `std::vector<double>` as far as `reserve`, `size()` and writes through
`begin()` go: the number of elements and the allocated storage. -/
structure DoubleVector where
  size : Nat
  storage : List ℚ
deriving DecidableEq

/-- `v.reserve(n)`: the storage grows to `n` slots, `size()` is unchanged. -/
def DoubleVector.reserve (v : DoubleVector) (n : Nat) : DoubleVector :=
  ⟨v.size, v.storage ++ List.replicate (n - v.storage.length) 0⟩

/-- `std::transform(first, last, v.begin(), f)` with the values `f(*first), ...`
given as `xs`: they are stored from the first slot of the storage on,
`size()` is unchanged. -/
def DoubleVector.transform_to_begin (v : DoubleVector) (xs : List ℚ) : DoubleVector :=
  ⟨v.size, xs ++ v.storage.drop xs.length⟩

/-- The member `fall_speeds` after the constructor of the Collider: default
constructed, `reserve(pc)`, then `std::transform` of `ridx` to
`fall_speeds.begin()`. -/
def Collider.fall_speeds_vector (env : Env) (sps : List Superparticle) (first last out : Nat)
    (dt : ℚ) : DoubleVector :=
  (DoubleVector.reserve ⟨0, []⟩ (last - first)).transform_to_begin
    ((Collider.new env sps first last out dt).ridx.map fun ri => env.fall_speed ri.1)

/-! ## The layer partitioner -/

/-- Modelled from the spec: `IndexSuperparticle` is declared in
`superparticle.h`, which is not among the sources. `sort_layer` builds it as
`{i, sps[i]}` and `sortsps` reads its member `sp`: an original index and a
particle. -/
structure IndexSuperparticle where
  i : Nat
  sp : Superparticle
deriving DecidableEq

/-- The body of the loop of `sort_layer` for the index `i`: a nucleated
particle is pushed, with its index, to the back of the layer
`grid.getlayindex(sps[i].z)`. -/
def sort_layer_step (sps : List Superparticle) (grid : Grid)
    (out : List (List IndexSuperparticle)) (i : Nat) : List (List IndexSuperparticle) :=
  if (sps.getD i default).is_nucleated then
    out.set (grid.getlayindex (sps.getD i default).z)
      (out.getD (grid.getlayindex (sps.getD i default).z) [] ++ [⟨i, sps.getD i default⟩])
  else out

/-- `sort_layer(sps, grid)`: `grid.n_lay` empty layers, then the loop over
the indices of the ensemble. -/
def sort_layer (sps : List Superparticle) (grid : Grid) : List (List IndexSuperparticle) :=
  (List.range sps.length).foldl (sort_layer_step sps grid) (List.replicate grid.n_lay [])

/-- The order `std::sort` establishes with the comparator
`a.sp.radius() < b.sp.radius()`: `b` does not compare less than `a`. -/
def radius_le (a b : IndexSuperparticle) : Prop := a.sp.radius ≤ b.sp.radius

instance : DecidableRel radius_le := fun a b => by
  unfold radius_le
  exact inferInstance

instance : IsTotal IndexSuperparticle radius_le := ⟨fun a b => le_total a.sp.radius b.sp.radius⟩

instance : IsTrans IndexSuperparticle radius_le := ⟨fun _ _ _ hab hbc => by
  unfold radius_le at *
  exact le_trans hab hbc⟩

/-- `sortsps(sps, grid)`: every layer of `sort_layer` sorted by radius.
`std::sort` leaves the order of entries of equal radius open; the stable order
is taken here. -/
def sortsps (sps : List Superparticle) (grid : Grid) : List (List IndexSuperparticle) :=
  (sort_layer sps grid).map fun layer => List.insertionSort radius_le layer

/-! ## The count change before the floor -/

/-- The rate of `weights(i)`: the sum `internal_collisions + external_collisions`
that `weights` multiplies by `dt` and floors. -/
def Collider.rate (c : Collider) (i : Nat) : ℚ :=
  let r := (c.ri i).1
  let isp := (c.ri i).2
  let internal_collisions :=
    -hall_collision_kernal c.env r r (c.fs i) (c.fs i) * (1 / 2) * (c.sp isp).N *
      ((c.sp isp).N - 1)
  let external_collisions :=
    (List.range' (i + 1) (c.pc - (i + 1))).foldl
      (fun acc j =>
        let R := (c.ri j).1
        let iSP := (c.ri j).2
        acc - hall_collision_kernal c.env r R (c.fs i) (c.fs j) * (c.sp isp).N * (c.sp iSP).N)
      0
  internal_collisions + external_collisions

/-- The water-content change that `calculate` writes for the sorted position
`i`, as a function of the count change `dN` put into it. -/
def Collider.dqc_of (c : Collider) (i : Nat) (dN : ℚ) : ℚ :=
  4 / 3 * c.env.PI * c.env.RHO_H2O * ((c.particle i).N + dN) * c.mass i /
    (1 - dN / (c.particle i).N) - (c.particle i).qc

/-- The sum of `dqc` over the output slots of the slice after `_collide` on a
value-initialised tendency vector of `n` slots. -/
def dqc_sum (env : Env) (sps : List Superparticle) (first last out n : Nat) (dt : ℚ) : ℚ :=
  ∑ k in Finset.range (last - first),
    ((_collide env sps first last (List.replicate n SpMassTendencies.zero) out dt).getD
      (out + k) default).dqc

/-- The comparison sum of the conservation property, in the words of the
specification: the same sum with the un-floored count change. Every position
but the last gets the water-content change of `calculate` with `dt * rate` in
the place of `floor(dt * rate)`; the last position gets `mass(pc - 1)`, as in
`calculate`. -/
def dqc_sum_unfloored (env : Env) (sps : List Superparticle) (first last out : Nat) (dt : ℚ) :
    ℚ :=
  (∑ i in Finset.range (last - first - 1),
    (Collider.new env sps first last out dt).dqc_of i
      (dt * (Collider.new env sps first last out dt).rate i)) +
  (Collider.new env sps first last out dt).mass (last - first - 1)

/-! ## Concrete inputs

Small inputs on which the definitions above are evaluated. -/

/-- An environment with `PI = 3`, `RHO_H2O = 1000`, the fall speed `r ↦ r` and
the constant efficiency `1`. -/
def demoEnv : Env := ⟨3, 1000, fun r => r, fun _ _ => 1⟩

/-- A grid with one layer between the levels `0` and `1`. -/
def demoGrid : Grid := ⟨1, [0, 1], fun _ => 0⟩

/-- Two particles at height `1/2`, neither nucleated, with radii `1` and `2`. -/
def dryPair : List Superparticle := [⟨0, 1 / 2, 1, false, 1⟩, ⟨0, 1 / 2, 1, false, 2⟩]

/-- One nucleated and one non-nucleated particle at height `1/2`. -/
def mixedPair : List Superparticle := [⟨0, 1 / 2, 5, true, 2⟩, ⟨0, 1 / 2, 7, false, 1⟩]

/-- Three nucleated particles at height `1/2` with radii `2`, `1`, `3`. -/
def demoSlice : List Superparticle :=
  [⟨1, 1 / 2, 4, true, 2⟩, ⟨1, 1 / 2, 6, true, 1⟩, ⟨1, 1 / 2, 2, true, 3⟩]

/-- An efficiency provider with values in `[0, 1]` that separates a radius
ratio above `1` from one below. -/
def ratioEnv : Env := ⟨3, 1000, fun r => r, fun _ q => if q ≤ 1 then 1 else 0⟩

/-- A grid without levels. -/
def emptyGrid : Grid := ⟨0, [], fun _ => 0⟩

/-- A grid with two layers, between the levels `0`, `1` and `2`; the layer
index of a height is its integer part. -/
def twoLayerGrid : Grid := ⟨2, [0, 1, 2], fun z => ⌊z⌋.toNat⟩

/-- A z-ascending ensemble: one particle below the grid, two in the layer
`[0, 1)`, one in the layer `[1, 2)`, one above the grid. -/
def column : List Superparticle :=
  [⟨0, -1, 1, true, 5⟩, ⟨1, 1 / 4, 4, true, 2⟩, ⟨1, 1 / 2, 6, false, 1⟩, ⟨1, 3 / 2, 2, true, 3⟩,
    ⟨0, 5 / 2, 1, true, 4⟩]

/-- Three particles of the layers of `twoLayerGrid`, the second one not
nucleated, the other two in the layer `[0, 1)` in descending radius. -/
def layered : List Superparticle :=
  [⟨1, 1 / 4, 4, true, 2⟩, ⟨1, 3 / 2, 6, false, 1⟩, ⟨1, 1 / 2, 2, true, 1⟩]

/-- The slice `demoSlice` in another order: the particle at position `k` of
`demoSlice` stands at position `demoShift k`. -/
def demoSliceShifted : List Superparticle :=
  [⟨1, 1 / 2, 2, true, 3⟩, ⟨1, 1 / 2, 4, true, 2⟩, ⟨1, 1 / 2, 6, true, 1⟩]

/-- The positions of the particles of `demoSlice` in `demoSliceShifted`. -/
def demoShift (k : Nat) : Nat := (k + 1) % 3


/-! ## Vectors as lists: reading back a written slot -/

theorem getD_set_self {α : Type} (l : List α) (i : Nat) (v d : α) (h : i < l.length) :
    (l.set i v).getD i d = v := by
  simp [List.getD_eq_getElem?_getD, List.getElem?_set, h]

theorem getD_set_of_ne {α : Type} (l : List α) {i j : Nat} (v d : α) (h : i ≠ j) :
    (l.set i v).getD j d = l.getD j d := by
  simp [List.getD_eq_getElem?_getD, List.getElem?_set, h]

theorem getD_of_lt {α : Type} (l : List α) (i : Nat) (d : α) (h : i < l.length) :
    l.getD i d = l.get ⟨i, h⟩ := by
  simp [List.getD_eq_getElem?_getD, List.getElem?_eq_getElem h]

/-! ## The binary search -/

/-- The iteration bound of `lower_bound_loop` is never reached before the
loop ends: any two bounds of at least `len` give the same position. -/
theorem lower_bound_loop_fuel (sps : List Superparticle) (val : ℚ) (fuel1 fuel2 : Nat) :
    ∀ first len, len ≤ fuel1 → len ≤ fuel2 →
      lower_bound_loop sps val fuel1 first len = lower_bound_loop sps val fuel2 first len := by
  induction fuel1 generalizing fuel2 with
  | zero =>
    intro first len h1 _
    have hl : len = 0 := by omega
    subst hl
    cases fuel2 <;> simp [lower_bound_loop]
  | succ n ih =>
    intro first len h1 h2
    cases fuel2 with
    | zero =>
      have hl : len = 0 := by omega
      subst hl
      simp [lower_bound_loop]
    | succ m =>
      simp only [lower_bound_loop]
      split
      · rfl
      · split
        · exact ih m _ _ (by omega) (by omega)
        · exact ih m _ _ (by omega) (by omega)

/-- `std::lower_bound` returns a position of the range it searches. -/
theorem lower_bound_loop_range (sps : List Superparticle) (val : ℚ) (fuel : Nat) :
    ∀ first len, first ≤ lower_bound_loop sps val fuel first len ∧
      lower_bound_loop sps val fuel first len ≤ first + len := by
  induction fuel with
  | zero => intro first len; simp [lower_bound_loop]
  | succ n ih =>
    intro first len
    simp only [lower_bound_loop]
    split
    · omega
    · split
      · have h := ih (first + len / 2 + 1) (len - len / 2 - 1)
        have h2 : len / 2 < len := Nat.div_lt_self (by omega) (by decide)
        omega
      · have h := ih first (len / 2)
        have h2 : len / 2 < len := Nat.div_lt_self (by omega) (by decide)
        omega

/-! ## The sorted index `ridx` -/

/-- The unsorted `ridx`: the radius of every particle of the slice, paired with
its distance from `first`. -/
theorem ridx_perm (env : Env) (sps : List Superparticle) (first last out : Nat) (dt : ℚ) :
    (Collider.new env sps first last out dt).ridx.Perm
      ((List.range (last - first)).map fun k => ((sps.getD (first + k) default).radius, k)) :=
  List.perm_insertionSort _ _

theorem ridx_length (env : Env) (sps : List Superparticle) (first last out : Nat) (dt : ℚ) :
    (Collider.new env sps first last out dt).ridx.length = last - first := by
  rw [(ridx_perm env sps first last out dt).length_eq]
  simp

theorem ridx_sorted (env : Env) (sps : List Superparticle) (first last out : Nat) (dt : ℚ) :
    (Collider.new env sps first last out dt).ridx.Sorted ridx_le :=
  List.sorted_insertionSort _ _

theorem ridx_snd_nodup (env : Env) (sps : List Superparticle) (first last out : Nat) (dt : ℚ) :
    ((Collider.new env sps first last out dt).ridx.map Prod.snd).Nodup := by
  have h := (ridx_perm env sps first last out dt).map Prod.snd
  rw [h.nodup_iff]
  simp only [List.map_map]
  have : (Prod.snd ∘ fun k => ((sps.getD (first + k) default).radius, k)) = id := by
    funext k; rfl
  rw [this, List.map_id]
  exact List.nodup_range _

/-- Every entry of `ridx` is the radius of a particle of the slice, paired
with the local index of that particle. -/
theorem ri_spec (env : Env) (sps : List Superparticle) (first last out : Nat) (dt : ℚ)
    (i : Nat) (hi : i < last - first) :
    ((Collider.new env sps first last out dt).ri i).2 < last - first ∧
    ((Collider.new env sps first last out dt).ri i).1 =
      ((Collider.new env sps first last out dt).sp
        ((Collider.new env sps first last out dt).ri i).2).radius := by
  have hlen := ridx_length env sps first last out dt
  have hi' : i < (Collider.new env sps first last out dt).ridx.length := by omega
  have hmem : (Collider.new env sps first last out dt).ri i ∈
      (Collider.new env sps first last out dt).ridx := by
    unfold Collider.ri
    rw [getD_of_lt _ _ _ hi']
    exact List.get_mem _ _ _
  have h2 := (ridx_perm env sps first last out dt).mem_iff.mp hmem
  simp only [List.mem_map, List.mem_range] at h2
  obtain ⟨k, hk, hke⟩ := h2
  rw [← hke]
  exact ⟨hk, rfl⟩

/-- Different sorted positions carry different local indices. -/
theorem ri_snd_inj (env : Env) (sps : List Superparticle) (first last out : Nat) (dt : ℚ)
    (i j : Nat) (hi : i < last - first) (hj : j < last - first)
    (h : ((Collider.new env sps first last out dt).ri i).2 =
      ((Collider.new env sps first last out dt).ri j).2) : i = j := by
  have hlen := ridx_length env sps first last out dt
  have hnd := ridx_snd_nodup env sps first last out dt
  have hi' : i < ((Collider.new env sps first last out dt).ridx.map Prod.snd).length := by
    simp; omega
  have hj' : j < ((Collider.new env sps first last out dt).ridx.map Prod.snd).length := by
    simp; omega
  have hi2 : i < (Collider.new env sps first last out dt).ridx.length := by omega
  have hj2 : j < (Collider.new env sps first last out dt).ridx.length := by omega
  have key := (@List.Nodup.get_inj_iff _ _ hnd ⟨i, hi'⟩ ⟨j, hj'⟩).mp
  unfold Collider.ri at h
  rw [getD_of_lt _ _ _ hi2, getD_of_lt _ _ _ hj2] at h
  have := key (by simpa using h)
  simpa using this

/-- Every local index of the slice stands at some sorted position. -/
theorem ri_snd_surj (env : Env) (sps : List Superparticle) (first last out : Nat) (dt : ℚ)
    (k : Nat) (hk : k < last - first) :
    ∃ i, i < last - first ∧ ((Collider.new env sps first last out dt).ri i).2 = k := by
  have hlen := ridx_length env sps first last out dt
  have hmem : ((sps.getD (first + k) default).radius, k) ∈
      (Collider.new env sps first last out dt).ridx := by
    rw [(ridx_perm env sps first last out dt).mem_iff]
    simp only [List.mem_map, List.mem_range]
    exact ⟨k, hk, rfl⟩
  obtain ⟨i, hi, hie⟩ := List.getElem_of_mem hmem
  refine ⟨i, by omega, ?_⟩
  unfold Collider.ri
  rw [getD_of_lt _ _ _ hi]
  simp only [List.get_eq_getElem]
  rw [hie]

/-- The radii are ascending along `ridx`. -/
theorem ri_fst_mono (env : Env) (sps : List Superparticle) (first last out : Nat) (dt : ℚ)
    (i j : Nat) (hij : i < j) (hj : j < last - first) :
    ((Collider.new env sps first last out dt).ri i).1 ≤
      ((Collider.new env sps first last out dt).ri j).1 := by
  have hlen := ridx_length env sps first last out dt
  have hi2 : i < (Collider.new env sps first last out dt).ridx.length := by omega
  have hj2 : j < (Collider.new env sps first last out dt).ridx.length := by omega
  have hs := ridx_sorted env sps first last out dt
  have hrel : ridx_le ((Collider.new env sps first last out dt).ridx.get ⟨i, hi2⟩)
      ((Collider.new env sps first last out dt).ridx.get ⟨j, hj2⟩) :=
    hs.rel_get_of_lt (by simpa using hij)
  unfold Collider.ri
  rw [getD_of_lt _ _ _ hi2, getD_of_lt _ _ _ hj2]
  rcases hrel with h | ⟨h, _⟩
  · exact le_of_lt h
  · exact le_of_eq h

/-- The stored fall speed of a sorted position is the fall speed of its
radius. -/
theorem fs_spec (env : Env) (sps : List Superparticle) (first last out : Nat) (dt : ℚ)
    (i : Nat) (hi : i < last - first) :
    (Collider.new env sps first last out dt).fs i =
      env.fall_speed ((Collider.new env sps first last out dt).ri i).1 := by
  have hlen := ridx_length env sps first last out dt
  have hi2 : i < (Collider.new env sps first last out dt).ridx.length := by omega
  unfold Collider.fs Collider.ri
  have hfs : (Collider.new env sps first last out dt).fall_speeds =
      (Collider.new env sps first last out dt).ridx.map fun ri => env.fall_speed ri.1 := rfl
  rw [hfs]
  have hi3 : i < ((Collider.new env sps first last out dt).ridx.map
      fun ri => env.fall_speed ri.1).length := by simpa using hi2
  rw [getD_of_lt _ _ _ hi3, getD_of_lt _ _ _ hi2]
  simp

/-! ## The writes of `Collider::calculate` -/

theorem calculate_step_length (c : Collider) (t : List SpMassTendencies) (i : Nat) :
    (c.calculate_step t i).length = t.length := by
  simp [Collider.calculate_step]

/-- One loop iteration leaves every slot but `out[isp]` as it was. -/
theorem calculate_step_other (c : Collider) (t : List SpMassTendencies) (i m : Nat)
    (hm : c.out + (c.ri i).2 ≠ m) :
    (c.calculate_step t i).getD m default = t.getD m default := by
  unfold Collider.calculate_step
  simp only []
  rw [getD_set_of_ne _ _ _ hm, getD_set_of_ne _ _ _ hm]

/-- One loop iteration writes `weights(i)` and the water-content change
computed from it into `out[isp]`. -/
theorem calculate_step_self (c : Collider) (t : List SpMassTendencies) (i : Nat)
    (hb : c.out + (c.ri i).2 < t.length) :
    c.outAt (c.calculate_step t i) (c.ri i).2 =
      { dqc := 4 / 3 * c.env.PI * c.env.RHO_H2O *
            ((c.sp (c.ri i).2).N + ((c.weights i : ℤ) : ℚ)) * c.mass i /
            (1 - ((c.weights i : ℤ) : ℚ) / (c.sp (c.ri i).2).N) - (c.sp (c.ri i).2).qc
        dN := c.weights i } := by
  unfold Collider.calculate_step Collider.outAt
  simp only []
  rw [getD_set_self _ _ _ _ (by simpa using hb), getD_set_self _ _ _ _ hb]

theorem calculate_loop_length (c : Collider) (t : List SpMassTendencies) (n : Nat) :
    ((List.range n).foldl c.calculate_step t).length = t.length := by
  induction n with
  | zero => simp
  | succ n ih =>
    rw [List.range_succ, List.foldl_append]
    simp only [List.foldl_cons, List.foldl_nil]
    rw [calculate_step_length, ih]

/-- The loop over the sorted positions `0 .. n - 1` leaves every slot that
belongs to none of them as it was. -/
theorem calculate_loop_other (c : Collider) (t : List SpMassTendencies) (n m : Nat)
    (hm : ∀ i, i < n → c.out + (c.ri i).2 ≠ m) :
    ((List.range n).foldl c.calculate_step t).getD m default = t.getD m default := by
  induction n with
  | zero => simp
  | succ n ih =>
    rw [List.range_succ, List.foldl_append]
    simp only [List.foldl_cons, List.foldl_nil]
    rw [calculate_step_other _ _ _ _ (hm n (Nat.lt_succ_self n))]
    exact ih fun i hi => hm i (Nat.lt_succ_of_lt hi)

/-- After the loop over the sorted positions `0 .. n - 1`, the slot of each of
them holds what its iteration wrote. -/
theorem calculate_loop_self (c : Collider) (t : List SpMassTendencies) (n : Nat)
    (hn : n ≤ c.pc)
    (hinj : ∀ i j, i < c.pc → j < c.pc → (c.ri i).2 = (c.ri j).2 → i = j)
    (hb : ∀ i, i < c.pc → c.out + (c.ri i).2 < t.length)
    (i : Nat) (hi : i < n) :
    c.outAt ((List.range n).foldl c.calculate_step t) (c.ri i).2 =
      { dqc := 4 / 3 * c.env.PI * c.env.RHO_H2O *
            ((c.sp (c.ri i).2).N + ((c.weights i : ℤ) : ℚ)) * c.mass i /
            (1 - ((c.weights i : ℤ) : ℚ) / (c.sp (c.ri i).2).N) - (c.sp (c.ri i).2).qc
        dN := c.weights i } := by
  induction n with
  | zero => omega
  | succ n ih =>
    rw [List.range_succ, List.foldl_append]
    simp only [List.foldl_cons, List.foldl_nil]
    by_cases hin : i = n
    · subst hin
      apply calculate_step_self
      rw [calculate_loop_length]
      exact hb i (by omega)
    · have hne : c.out + (c.ri n).2 ≠ c.out + (c.ri i).2 := by
        intro h
        have := hinj n i (by omega) (by omega) (by omega)
        omega
      unfold Collider.outAt
      rw [calculate_step_other _ _ _ _ hne]
      exact ih (by omega) (by omega)

theorem calculate_length (c : Collider) (t : List SpMassTendencies) :
    (c.calculate t).length = t.length := by
  unfold Collider.calculate
  simp only [List.length_set]
  exact calculate_loop_length c t _

/-- The tendency `calculate` leaves for a sorted position that is not the
last one. -/
theorem calculate_nonlast (c : Collider) (t : List SpMassTendencies)
    (hinj : ∀ i j, i < c.pc → j < c.pc → (c.ri i).2 = (c.ri j).2 → i = j)
    (hb : ∀ i, i < c.pc → c.out + (c.ri i).2 < t.length)
    (i : Nat) (hi : i < c.pc - 1) :
    c.outAt (c.calculate t) (c.ri i).2 =
      { dqc := 4 / 3 * c.env.PI * c.env.RHO_H2O *
            ((c.sp (c.ri i).2).N + ((c.weights i : ℤ) : ℚ)) * c.mass i /
            (1 - ((c.weights i : ℤ) : ℚ) / (c.sp (c.ri i).2).N) - (c.sp (c.ri i).2).qc
        dN := c.weights i } := by
  have hne : c.out + (c.ri (c.pc - 1)).2 ≠ c.out + (c.ri i).2 := by
    intro h
    have := hinj (c.pc - 1) i (by omega) (by omega) (by omega)
    omega
  have key := calculate_loop_self c t (c.pc - 1) (by omega) hinj hb i hi
  unfold Collider.calculate
  simp only []
  unfold Collider.outAt at key ⊢
  rw [getD_set_of_ne _ _ _ hne]
  exact key

/-- The tendency `calculate` leaves for the last sorted position: `dqc` is
`mass(pc - 1)` and `dN` is what the slot held before. -/
theorem calculate_last (c : Collider) (t : List SpMassTendencies) (hpc : 0 < c.pc)
    (hinj : ∀ i j, i < c.pc → j < c.pc → (c.ri i).2 = (c.ri j).2 → i = j)
    (hb : ∀ i, i < c.pc → c.out + (c.ri i).2 < t.length) :
    c.outAt (c.calculate t) (c.ri (c.pc - 1)).2 =
      { dqc := c.mass (c.pc - 1)
        dN := (c.outAt t (c.ri (c.pc - 1)).2).dN } := by
  have hother := calculate_loop_other c t (c.pc - 1) (c.out + (c.ri (c.pc - 1)).2)
    (fun i hi h => by
      have := hinj i (c.pc - 1) (by omega) (by omega) (by omega)
      omega)
  unfold Collider.calculate
  simp only []
  unfold Collider.outAt
  rw [getD_set_self _ _ _ _ (by rw [calculate_loop_length]; exact hb _ (by omega))]
  rw [hother]

/-- Slots outside the output range of the slice are not written. -/
theorem calculate_outside (c : Collider) (t : List SpMassTendencies) (hpc : 0 < c.pc) (m : Nat)
    (hm : ∀ i, i < c.pc → c.out + (c.ri i).2 ≠ m) :
    (c.calculate t).getD m default = t.getD m default := by
  unfold Collider.calculate
  simp only []
  rw [getD_set_of_ne _ _ _ (hm (c.pc - 1) (by omega))]
  exact calculate_loop_other c t _ m fun i hi => hm i (by omega)

/-! ## The sums of `weights` and `mass` -/

theorem foldl_sub_range' (f : Nat → ℚ) (a : ℚ) (s n : Nat) :
    (List.range' s n).foldl (fun acc j => acc - f j) a = a - ∑ j in Finset.Ico s (s + n), f j := by
  induction n with
  | zero => simp
  | succ n ih =>
    rw [List.range'_concat, List.foldl_append, ih]
    simp only [List.foldl_cons, List.foldl_nil, one_mul]
    rw [← Nat.add_assoc, Finset.sum_Ico_succ_top (Nat.le_add_right s n)]
    ring

theorem foldl_add_range (f : Nat → ℚ) (a : ℚ) (n : Nat) :
    (List.range n).foldl (fun acc j => acc + f j) a = a + ∑ j in Finset.range n, f j := by
  induction n with
  | zero => simp
  | succ n ih =>
    rw [List.range_succ, List.foldl_append, ih]
    simp only [List.foldl_cons, List.foldl_nil]
    rw [Finset.sum_range_succ]
    ring

/-- The kernel of a particle with itself, at one fall speed, is zero. -/
theorem hall_collision_kernal_same_speed (env : Env) (r R fs : ℚ) :
    hall_collision_kernal env r R fs fs = 0 := by
  simp [hall_collision_kernal]

theorem hall_collision_kernal_nonneg (env : Env) (r R fs FS : ℚ) (hPI : 0 ≤ env.PI)
    (hE : ∀ a b, 0 ≤ env.collision_efficiency a b) :
    0 ≤ hall_collision_kernal env r R fs FS := by
  have h : hall_collision_kernal env r R fs FS =
      env.PI * ((R + r) * (R + r)) * |FS - fs| *
        env.collision_efficiency (R * 1000000) (r / R) := by
    unfold hall_collision_kernal
    ring
  rw [h]
  exact mul_nonneg (mul_nonneg (mul_nonneg hPI (mul_self_nonneg _)) (abs_nonneg _)) (hE _ _)

/-- The radius stored at a sorted position is the radius of the particle at
that position. -/
theorem ri_fst_eq (env : Env) (sps : List Superparticle) (first last out : Nat) (dt : ℚ)
    (i : Nat) (hi : i < last - first) :
    ((Collider.new env sps first last out dt).ri i).1 =
      ((Collider.new env sps first last out dt).particle i).radius :=
  (ri_spec env sps first last out dt i hi).2

/-- The fall speed stored at a sorted position is the fall speed of the
particle at that position. -/
theorem fs_eq (env : Env) (sps : List Superparticle) (first last out : Nat) (dt : ℚ)
    (i : Nat) (hi : i < last - first) :
    (Collider.new env sps first last out dt).fs i =
      env.fall_speed ((Collider.new env sps first last out dt).particle i).radius := by
  rw [fs_spec env sps first last out dt i hi, ri_fst_eq env sps first last out dt i hi]

/-- `weights(i)` as a closed formula over the particles in sorted order. -/
theorem weights_eq (env : Env) (sps : List Superparticle) (first last out : Nat) (dt : ℚ)
    (i : Nat) (hi : i < last - first) :
    (Collider.new env sps first last out dt).weights i =
      ⌊dt * (-hall_collision_kernal env
            ((Collider.new env sps first last out dt).particle i).radius
            ((Collider.new env sps first last out dt).particle i).radius
            (env.fall_speed ((Collider.new env sps first last out dt).particle i).radius)
            (env.fall_speed ((Collider.new env sps first last out dt).particle i).radius) *
          (1 / 2) * ((Collider.new env sps first last out dt).particle i).N *
          (((Collider.new env sps first last out dt).particle i).N - 1) -
        ∑ j in Finset.Ico (i + 1) (last - first),
          hall_collision_kernal env
            ((Collider.new env sps first last out dt).particle i).radius
            ((Collider.new env sps first last out dt).particle j).radius
            (env.fall_speed ((Collider.new env sps first last out dt).particle i).radius)
            (env.fall_speed ((Collider.new env sps first last out dt).particle j).radius) *
          ((Collider.new env sps first last out dt).particle i).N *
          ((Collider.new env sps first last out dt).particle j).N)⌋ := by
  generalize hc : Collider.new env sps first last out dt = c
  have hri : ∀ j, j < last - first → (c.ri j).1 = (c.particle j).radius := fun j hj => by
    rw [← hc]; exact ri_fst_eq env sps first last out dt j hj
  have hfs : ∀ j, j < last - first → c.fs j = env.fall_speed (c.particle j).radius :=
    fun j hj => by rw [← hc]; exact fs_eq env sps first last out dt j hj
  have hpc : c.pc = last - first := by rw [← hc]; rfl
  have hdt : c.dt = dt := by rw [← hc]; rfl
  have henv : c.env = env := by rw [← hc]; rfl
  unfold Collider.weights
  simp only []
  rw [foldl_sub_range', hpc, hdt, henv, hri i hi, hfs i hi]
  have hend : i + 1 + (last - first - (i + 1)) = last - first := by omega
  rw [hend]
  have hsum : ∑ j in Finset.Ico (i + 1) (last - first),
        hall_collision_kernal env (c.particle i).radius (c.ri j).1
          (env.fall_speed (c.particle i).radius) (c.fs j) *
          (c.sp (c.ri i).2).N * (c.sp (c.ri j).2).N =
      ∑ j in Finset.Ico (i + 1) (last - first),
        hall_collision_kernal env (c.particle i).radius (c.particle j).radius
          (env.fall_speed (c.particle i).radius) (env.fall_speed (c.particle j).radius) *
          (c.particle i).N * (c.particle j).N := by
    apply Finset.sum_congr rfl
    intro j hj
    rw [Finset.mem_Ico] at hj
    rw [hri j hj.2, hfs j hj.2]
    rfl
  rw [hsum]
  congr 2
  unfold Collider.particle
  ring

/-- `mass(i)` as a closed formula over the particles in sorted order. -/
theorem mass_eq (env : Env) (sps : List Superparticle) (first last out : Nat) (dt : ℚ)
    (i : Nat) (hi : i < last - first) :
    (Collider.new env sps first last out dt).mass i =
      dt * (((Collider.new env sps first last out dt).particle i).radius ^ 3 +
        ∑ j in Finset.range i,
          hall_collision_kernal env
            ((Collider.new env sps first last out dt).particle i).radius
            ((Collider.new env sps first last out dt).particle j).radius
            (env.fall_speed ((Collider.new env sps first last out dt).particle i).radius)
            (env.fall_speed ((Collider.new env sps first last out dt).particle j).radius) *
          ((Collider.new env sps first last out dt).particle j).N *
          ((Collider.new env sps first last out dt).particle j).radius ^ 3 -
        ∑ j in Finset.Ico (i + 1) (last - first),
          hall_collision_kernal env
            ((Collider.new env sps first last out dt).particle i).radius
            ((Collider.new env sps first last out dt).particle j).radius
            (env.fall_speed ((Collider.new env sps first last out dt).particle i).radius)
            (env.fall_speed ((Collider.new env sps first last out dt).particle j).radius) *
          ((Collider.new env sps first last out dt).particle j).N *
          ((Collider.new env sps first last out dt).particle i).radius ^ 3) := by
  generalize hc : Collider.new env sps first last out dt = c
  have hri : ∀ j, j < last - first → (c.ri j).1 = (c.particle j).radius := fun j hj => by
    rw [← hc]; exact ri_fst_eq env sps first last out dt j hj
  have hfs : ∀ j, j < last - first → c.fs j = env.fall_speed (c.particle j).radius :=
    fun j hj => by rw [← hc]; exact fs_eq env sps first last out dt j hj
  have hpc : c.pc = last - first := by rw [← hc]; rfl
  have hdt : c.dt = dt := by rw [← hc]; rfl
  have henv : c.env = env := by rw [← hc]; rfl
  unfold Collider.mass
  simp only []
  rw [foldl_sub_range', foldl_add_range, hpc, hdt, henv, hri i hi, hfs i hi]
  have hend : i + 1 + (last - first - (i + 1)) = last - first := by omega
  rw [hend]
  have hsum1 : ∑ j in Finset.range i,
        hall_collision_kernal env (c.particle i).radius (c.ri j).1
          (env.fall_speed (c.particle i).radius) (c.fs j) *
          (c.sp (c.ri j).2).N * (c.ri j).1 * (c.ri j).1 * (c.ri j).1 =
      ∑ j in Finset.range i,
        hall_collision_kernal env (c.particle i).radius (c.particle j).radius
          (env.fall_speed (c.particle i).radius) (env.fall_speed (c.particle j).radius) *
          (c.particle j).N * (c.particle j).radius ^ 3 := by
    apply Finset.sum_congr rfl
    intro j hj
    rw [Finset.mem_range] at hj
    rw [hri j (by omega), hfs j (by omega)]
    unfold Collider.particle
    ring
  have hsum2 : ∑ j in Finset.Ico (i + 1) (last - first),
        hall_collision_kernal env (c.particle i).radius (c.ri j).1
          (env.fall_speed (c.particle i).radius) (c.fs j) *
          (c.sp (c.ri j).2).N * (c.particle i).radius * (c.particle i).radius *
          (c.particle i).radius =
      ∑ j in Finset.Ico (i + 1) (last - first),
        hall_collision_kernal env (c.particle i).radius (c.particle j).radius
          (env.fall_speed (c.particle i).radius) (env.fall_speed (c.particle j).radius) *
          (c.particle j).N * (c.particle i).radius ^ 3 := by
    apply Finset.sum_congr rfl
    intro j hj
    rw [Finset.mem_Ico] at hj
    rw [hri j hj.2, hfs j hj.2]
    unfold Collider.particle
    ring
  rw [hsum1, hsum2]
  ring

/-- The hypotheses of the write lemmas hold for a constructed Collider whose
output range lies within the tendency vector. -/
theorem new_inj (env : Env) (sps : List Superparticle) (first last out : Nat) (dt : ℚ) :
    ∀ i j, i < (Collider.new env sps first last out dt).pc →
      j < (Collider.new env sps first last out dt).pc →
      ((Collider.new env sps first last out dt).ri i).2 =
        ((Collider.new env sps first last out dt).ri j).2 → i = j :=
  fun i j hi hj h => ri_snd_inj env sps first last out dt i j hi hj h

theorem new_bound (env : Env) (sps : List Superparticle) (first last out : Nat) (dt : ℚ)
    (t : List SpMassTendencies) (hout : out + (last - first) ≤ t.length) :
    ∀ i, i < (Collider.new env sps first last out dt).pc →
      (Collider.new env sps first last out dt).out +
        ((Collider.new env sps first last out dt).ri i).2 < t.length := by
  intro i hi
  have h := (ri_spec env sps first last out dt i hi).1
  have ho : (Collider.new env sps first last out dt).out = out := rfl
  rw [ho]
  omega

/-- With at least two particles in the slice, `_collide` runs the Collider. -/
theorem _collide_eq (env : Env) (sps : List Superparticle) (first last : Nat)
    (t : List SpMassTendencies) (out : Nat) (dt : ℚ) (hpc : first + 2 ≤ last) :
    _collide env sps first last t out dt =
      (Collider.new env sps first last out dt).calculate t := by
  unfold _collide
  simp only []
  rw [if_neg (by omega)]


/-! ## The iterators of `collide` stay inside the ensemble -/

theorem lower_bound_range (sps : List Superparticle) (first last : Nat) (val : ℚ)
    (h : first ≤ last) :
    first ≤ lower_bound sps first last val ∧ lower_bound sps first last val ≤ last := by
  have := lower_bound_loop_range sps val (last - first) first (last - first)
  unfold lower_bound
  omega

/-- One iteration of the level loop moves `it1` forward and keeps it within
the ensemble, so the slice `[it1, it2)` and the slots the Collider writes,
`out + isp` with `isp < it2 - it1`, are inside their vectors. -/
theorem collide_step_range (env : Env) (sps : List Superparticle) (dt : ℚ)
    (st : Nat × List SpMassTendencies) (lvl : ℚ) (h : st.1 ≤ sps.length) :
    st.1 ≤ (collide_step env sps dt st lvl).1 ∧
      (collide_step env sps dt st lvl).1 ≤ sps.length :=
  lower_bound_range sps st.1 sps.length lvl h

/-! ## Strategy-level claims -/

/-- C1. `NoCollisions::collide` returns, for every ensemble, grid and time
step, exactly as many tendencies as the ensemble has superparticles, and every
one of them has `dqc = 0` and `dN = 0`. -/
theorem C1_no_collisions_zero (sps : List Superparticle) (grid : Grid) (dt : ℚ) :
    (NoCollisions.collide sps grid dt).length = sps.length ∧
    ∀ t ∈ NoCollisions.collide sps grid dt, t.dqc = 0 ∧ t.dN = 0 := by
  refine ⟨by simp [NoCollisions.collide], ?_⟩
  intro t ht
  have h := List.eq_of_mem_replicate ht
  subst h
  exact ⟨rfl, rfl⟩

theorem _collide_length (env : Env) (sps : List Superparticle) (first last : Nat)
    (t : List SpMassTendencies) (out : Nat) (dt : ℚ) :
    (_collide env sps first last t out dt).length = t.length := by
  unfold _collide
  simp only []
  split
  · rfl
  · exact calculate_length _ _

theorem collide_loop_length (env : Env) (sps : List Superparticle) (dt : ℚ) (lvls : List ℚ)
    (st : Nat × List SpMassTendencies) :
    (lvls.foldl (collide_step env sps dt) st).2.length = st.2.length := by
  induction lvls generalizing st with
  | nil => rfl
  | cons lvl rest ih =>
    rw [List.foldl_cons, ih]
    exact _collide_length _ _ _ _ _ _ _

/-- C2. `HallCollisions::collide` returns, for every ensemble (whatever its
particles' nucleation flags), every grid and every time step, a tendency
sequence as long as the ensemble. -/
theorem C2_hall_collide_length (env : Env) (sps : List Superparticle) (grid : Grid) (dt : ℚ) :
    (HallCollisions.collide env sps grid dt).length = sps.length := by
  unfold HallCollisions.collide
  simp only []
  split
  · simp
  · rw [collide_loop_length]
    simp

/-- C3, evaluated at a failing input. The ensemble `mixedPair` is z-ascending,
the levels `0, 1` are ascending, and the one layer between them holds both
particles, of which a single one is nucleated; `HallCollisions::collide` all
the same returns a non-zero tendency for both particles of the layer. -/
theorem C3_one_nucleated_layer_nonzero :
    demoGrid.lvls = [0, 1] ∧
    (mixedPair.map fun sp => (sp.z, sp.is_nucleated)) = [(1 / 2, true), (1 / 2, false)] ∧
    (HallCollisions.collide demoEnv mixedPair demoGrid 1).map (fun t => (t.dqc, t.dN)) =
      [(197, 0), (62846000 / 17, -945)] := by
  decide!

/-- C4, evaluated at a failing input. Neither particle of `dryPair` is
nucleated, and `HallCollisions::collide` returns a non-zero tendency for
both. -/
theorem C4_non_nucleated_nonzero :
    demoGrid.lvls = [0, 1] ∧
    (dryPair.map fun sp => (sp.z, sp.is_nucleated)) = [(1 / 2, false), (1 / 2, false)] ∧
    (HallCollisions.collide demoEnv dryPair demoGrid 1).map (fun t => (t.dqc, t.dN)) =
      [(676000 / 7, -27), (35, 0)] := by
  decide!

/-! ## Claims about the Collider -/

/-- C5. In a slice of at least two particles run through the Collider, with
the fall speed a function of the radius, every particle whose radius is the
greatest of the slice ends with `dN = 0` (its slot holding `dN = 0` when the
Collider starts, as in the value-initialised vector of `collide`). -/
theorem C5_largest_radius_dN_zero (env : Env) (sps : List Superparticle)
    (first last out : Nat) (dt : ℚ) (t : List SpMassTendencies)
    (hpc : first + 2 ≤ last) (hout : out + (last - first) ≤ t.length)
    (k : Nat) (hk : k < last - first)
    (hmax : ∀ m, m < last - first →
      (sps.getD (first + m) default).radius ≤ (sps.getD (first + k) default).radius)
    (h0 : (t.getD (out + k) default).dN = 0) :
    ((_collide env sps first last t out dt).getD (out + k) default).dN = 0 := by
  rw [_collide_eq env sps first last t out dt hpc]
  obtain ⟨i, hi, hik⟩ := ri_snd_surj env sps first last out dt k hk
  have hinj := new_inj env sps first last out dt
  have hb := new_bound env sps first last out dt t hout
  have hpcv : (Collider.new env sps first last out dt).pc = last - first := rfl
  by_cases hl : i = last - first - 1
  · have h := calculate_last _ t (by rw [hpcv]; omega) hinj hb
    rw [hpcv, ← hl, hik] at h
    unfold Collider.outAt at h
    have ho : (Collider.new env sps first last out dt).out = out := rfl
    rw [ho] at h
    rw [h]
    exact h0
  · have h := calculate_nonlast _ t hinj hb i (by rw [hpcv]; omega)
    rw [hik] at h
    unfold Collider.outAt at h
    have ho : (Collider.new env sps first last out dt).out = out := rfl
    rw [ho] at h
    rw [h]
    simp only []
    rw [weights_eq env sps first last out dt i hi, hall_collision_kernal_same_speed]
    have hzero : ∀ j ∈ Finset.Ico (i + 1) (last - first),
        hall_collision_kernal env
            ((Collider.new env sps first last out dt).particle i).radius
            ((Collider.new env sps first last out dt).particle j).radius
            (env.fall_speed ((Collider.new env sps first last out dt).particle i).radius)
            (env.fall_speed ((Collider.new env sps first last out dt).particle j).radius) *
          ((Collider.new env sps first last out dt).particle i).N *
          ((Collider.new env sps first last out dt).particle j).N = 0 := by
      intro j hj
      rw [Finset.mem_Ico] at hj
      have hle := ri_fst_mono env sps first last out dt i j (by omega) hj.2
      rw [ri_fst_eq env sps first last out dt i hi,
        ri_fst_eq env sps first last out dt j hj.2] at hle
      have hge : ((Collider.new env sps first last out dt).particle j).radius ≤
          ((Collider.new env sps first last out dt).particle i).radius := by
        have h1 := hmax _ (ri_spec env sps first last out dt j hj.2).1
        unfold Collider.particle Collider.sp
        rw [hik]
        exact h1
      rw [le_antisymm hge hle, hall_collision_kernal_same_speed]
      ring
    rw [Finset.sum_eq_zero hzero]
    simp

/-- C5 at a concrete slice: the particle of radius `3` in `demoSlice`. -/
theorem C5_largest_radius_dN_zero_witness :
    ((_collide demoEnv demoSlice 0 3 (List.replicate 3 SpMassTendencies.zero) 0 1).getD
      (0 + 2) default).dN = 0 :=
  C5_largest_radius_dN_zero demoEnv demoSlice 0 3 0 1 (List.replicate 3 SpMassTendencies.zero)
    (by decide) (by decide) 2 (by decide)
    (by intro m hm; interval_cases m <;> norm_num [demoSlice])
    (by decide)

/-- C6. In a slice of at least two particles, with `dt ≥ 0`, all
multiplicities `≥ 0` and an efficiency that is `≥ 0` (and `PI ≥ 0`), every
particle that is not last in ascending-radius order gets `dN ≤ 0`. -/
theorem C6_nonlast_dN_nonpos (env : Env) (sps : List Superparticle)
    (first last out : Nat) (dt : ℚ) (t : List SpMassTendencies)
    (hpc : first + 2 ≤ last) (hout : out + (last - first) ≤ t.length)
    (hdt : 0 ≤ dt)
    (hN : ∀ m, m < last - first → 0 ≤ (sps.getD (first + m) default).N)
    (hE : ∀ a b, 0 ≤ env.collision_efficiency a b) (hPI : 0 ≤ env.PI)
    (i : Nat) (hi : i < last - first - 1) :
    ((_collide env sps first last t out dt).getD
      (out + ((Collider.new env sps first last out dt).ri i).2) default).dN ≤ 0 := by
  rw [_collide_eq env sps first last t out dt hpc]
  have hinj := new_inj env sps first last out dt
  have hb := new_bound env sps first last out dt t hout
  have h := calculate_nonlast _ t hinj hb i hi
  unfold Collider.outAt at h
  have ho : (Collider.new env sps first last out dt).out = out := rfl
  rw [ho] at h
  rw [h]
  simp only []
  rw [weights_eq env sps first last out dt i (by omega), hall_collision_kernal_same_speed]
  have hNp : ∀ j, j < last - first →
      0 ≤ ((Collider.new env sps first last out dt).particle j).N := fun j hj =>
    hN _ (ri_spec env sps first last out dt j hj).1
  have hsum : 0 ≤ ∑ j in Finset.Ico (i + 1) (last - first),
        hall_collision_kernal env
            ((Collider.new env sps first last out dt).particle i).radius
            ((Collider.new env sps first last out dt).particle j).radius
            (env.fall_speed ((Collider.new env sps first last out dt).particle i).radius)
            (env.fall_speed ((Collider.new env sps first last out dt).particle j).radius) *
          ((Collider.new env sps first last out dt).particle i).N *
          ((Collider.new env sps first last out dt).particle j).N := by
    apply Finset.sum_nonneg
    intro j hj
    rw [Finset.mem_Ico] at hj
    exact mul_nonneg (mul_nonneg (hall_collision_kernal_nonneg env _ _ _ _ hPI hE)
      (hNp i (by omega))) (hNp j hj.2)
  apply Int.floor_nonpos
  apply mul_nonpos_of_nonneg_of_nonpos hdt
  simp only [neg_zero, zero_mul, zero_sub, neg_nonpos]
  exact hsum

/-- C6 at a concrete slice: the sorted position `0` of `demoSlice`. -/
theorem C6_nonlast_dN_nonpos_witness :
    ((_collide demoEnv demoSlice 0 3 (List.replicate 3 SpMassTendencies.zero) 0 1).getD
      (0 + ((Collider.new demoEnv demoSlice 0 3 0 1).ri 0).2) default).dN ≤ 0 :=
  C6_nonlast_dN_nonpos demoEnv demoSlice 0 3 0 1 (List.replicate 3 SpMassTendencies.zero)
    (by decide) (by decide) (by norm_num)
    (by intro m hm; interval_cases m <;> norm_num [demoSlice])
    (by intro a b; norm_num [demoEnv]) (by norm_num [demoEnv]) 0 (by decide)

/-- C10. In a slice of `pc ≥ 2` particles with `dt ≥ 0`, all radii `≥ 0`, all
multiplicities `≥ 0` and an efficiency that is `≥ 0` (and `PI ≥ 0`), the
particle last in ascending-radius order gets `dqc = mass(pc - 1)`, and this
value is `≥ 0`. -/
theorem C10_largest_mass_gain (env : Env) (sps : List Superparticle)
    (first last out : Nat) (dt : ℚ) (t : List SpMassTendencies)
    (hpc : first + 2 ≤ last) (hout : out + (last - first) ≤ t.length)
    (hdt : 0 ≤ dt)
    (hr : ∀ m, m < last - first → 0 ≤ (sps.getD (first + m) default).radius)
    (hN : ∀ m, m < last - first → 0 ≤ (sps.getD (first + m) default).N)
    (hE : ∀ a b, 0 ≤ env.collision_efficiency a b) (hPI : 0 ≤ env.PI) :
    ((_collide env sps first last t out dt).getD
      (out + ((Collider.new env sps first last out dt).ri (last - first - 1)).2) default).dqc =
      (Collider.new env sps first last out dt).mass (last - first - 1) ∧
    0 ≤ (Collider.new env sps first last out dt).mass (last - first - 1) := by
  rw [_collide_eq env sps first last t out dt hpc]
  have hinj := new_inj env sps first last out dt
  have hb := new_bound env sps first last out dt t hout
  have hpcv : (Collider.new env sps first last out dt).pc = last - first := rfl
  have h := calculate_last _ t (by rw [hpcv]; omega) hinj hb
  rw [hpcv] at h
  unfold Collider.outAt at h
  have ho : (Collider.new env sps first last out dt).out = out := rfl
  rw [ho] at h
  rw [h]
  refine ⟨rfl, ?_⟩
  rw [mass_eq env sps first last out dt (last - first - 1) (by omega)]
  have hrp : ∀ j, j < last - first →
      0 ≤ ((Collider.new env sps first last out dt).particle j).radius := fun j hj =>
    hr _ (ri_spec env sps first last out dt j hj).1
  have hNp : ∀ j, j < last - first →
      0 ≤ ((Collider.new env sps first last out dt).particle j).N := fun j hj =>
    hN _ (ri_spec env sps first last out dt j hj).1
  have hempty : Finset.Ico (last - first - 1 + 1) (last - first) = ∅ :=
    Finset.Ico_eq_empty (by omega)
  rw [hempty, Finset.sum_empty, sub_zero]
  apply mul_nonneg hdt
  apply add_nonneg (pow_nonneg (hrp _ (by omega)) 3)
  apply Finset.sum_nonneg
  intro j hj
  rw [Finset.mem_range] at hj
  exact mul_nonneg (mul_nonneg (hall_collision_kernal_nonneg env _ _ _ _ hPI hE)
    (hNp j (by omega))) (pow_nonneg (hrp j (by omega)) 3)

/-- C10 at a concrete slice: the particle of radius `3` of `demoSlice`. -/
theorem C10_largest_mass_gain_witness :
    ((_collide demoEnv demoSlice 0 3 (List.replicate 3 SpMassTendencies.zero) 0 1).getD
      (0 + ((Collider.new demoEnv demoSlice 0 3 0 1).ri (3 - 0 - 1)).2) default).dqc =
      (Collider.new demoEnv demoSlice 0 3 0 1).mass (3 - 0 - 1) ∧
    0 ≤ (Collider.new demoEnv demoSlice 0 3 0 1).mass (3 - 0 - 1) :=
  C10_largest_mass_gain demoEnv demoSlice 0 3 0 1 (List.replicate 3 SpMassTendencies.zero)
    (by decide) (by decide) (by norm_num)
    (by intro m hm; interval_cases m <;> norm_num [demoSlice])
    (by intro m hm; interval_cases m <;> norm_num [demoSlice])
    (by intro a b; norm_num [demoEnv]) (by norm_num [demoEnv])

/-! ## Level loop, trivial slices, fall-speed vector -/

/-- The tendency vector of `collide` is the value-initialised vector run
through the calls of `collide_calls`, one `_collide` per call. -/
theorem collide_loop_eq_calls (env : Env) (sps : List Superparticle) (dt : ℚ) (lvls : List ℚ)
    (st : Nat × List SpMassTendencies) :
    (lvls.foldl (collide_step env sps dt) st).2 =
      (collide_slices sps st.1 lvls).foldl
        (fun t c => _collide env sps c.1 c.2.1 t c.2.2 dt) st.2 := by
  induction lvls generalizing st with
  | nil => rfl
  | cons lvl rest ih =>
    rw [List.foldl_cons, ih]
    rfl

theorem collide_eq_calls (env : Env) (sps : List Superparticle) (grid : Grid) (dt : ℚ) :
    HallCollisions.collide env sps grid dt =
      (HallCollisions.collide_calls sps grid).foldl
        (fun t c => _collide env sps c.1 c.2.1 t c.2.2 dt)
        (List.replicate sps.length SpMassTendencies.zero) := by
  unfold HallCollisions.collide HallCollisions.collide_calls
  simp only []
  split
  · rfl
  · exact collide_loop_eq_calls env sps dt _ _

/-- C12. With a grid that defines no levels, `HallCollisions::collide` returns,
for every ensemble and time step, the value-initialised tendency vector: one
entry per particle, each with `dqc = 0` and `dN = 0`. -/
theorem C12_empty_grid_zero (env : Env) (sps : List Superparticle) (grid : Grid) (dt : ℚ)
    (hl : grid.lvls = []) :
    (HallCollisions.collide env sps grid dt).length = sps.length ∧
    ∀ t ∈ HallCollisions.collide env sps grid dt, t.dqc = 0 ∧ t.dN = 0 := by
  have h : HallCollisions.collide env sps grid dt =
      List.replicate sps.length SpMassTendencies.zero := by
    unfold HallCollisions.collide
    simp only [hl]
  rw [h]
  refine ⟨by simp, ?_⟩
  intro t ht
  have := List.eq_of_mem_replicate ht
  subst this
  exact ⟨rfl, rfl⟩

/-- C12 at a concrete input: `demoSlice` on a grid without levels. -/
theorem C12_empty_grid_zero_witness :
    (HallCollisions.collide demoEnv demoSlice emptyGrid 1).length = demoSlice.length ∧
    ∀ t ∈ HallCollisions.collide demoEnv demoSlice emptyGrid 1, t.dqc = 0 ∧ t.dN = 0 :=
  C12_empty_grid_zero demoEnv demoSlice emptyGrid 1 rfl

/-- C13. Whenever the slice `[first, last)` handed to `_collide` has fewer
than two members, `_collide` returns the tendency vector as it received it:
no slot is written. -/
theorem C13_trivial_slice_unchanged (env : Env) (sps : List Superparticle) (first last : Nat)
    (t : List SpMassTendencies) (out : Nat) (dt : ℚ)
    (_hfl : first ≤ last) (hpc : last - first < 2) :
    _collide env sps first last t out dt = t := by
  unfold _collide
  simp only []
  rw [if_pos hpc]

/-- C13 at a concrete input: a slice of one particle of `demoSlice`. -/
theorem C13_trivial_slice_unchanged_witness :
    _collide demoEnv demoSlice 1 2 (List.replicate 3 SpMassTendencies.zero) 1 1 =
      List.replicate 3 SpMassTendencies.zero :=
  C13_trivial_slice_unchanged demoEnv demoSlice 1 2 (List.replicate 3 SpMassTendencies.zero) 1 1
    (by decide) (by decide)

/-- The storage of the fall-speed vector is the sequence the Collider reads,
and its `size()` is `0` whatever the slice. -/
theorem fall_speeds_vector_spec (env : Env) (sps : List Superparticle) (first last out : Nat)
    (dt : ℚ) :
    (Collider.fall_speeds_vector env sps first last out dt).size = 0 ∧
    (Collider.fall_speeds_vector env sps first last out dt).storage =
      (Collider.new env sps first last out dt).fall_speeds := by
  refine ⟨rfl, ?_⟩
  have hlen := ridx_length env sps first last out dt
  unfold Collider.fall_speeds_vector DoubleVector.transform_to_begin DoubleVector.reserve
  simp only [List.length_nil, List.nil_append, List.length_map, hlen]
  rw [List.drop_eq_nil_of_le (by simp)]
  simp
  rfl

/-- C18, evaluated at a failing input. For the slice `demoSlice` of three
particles, the vector `fall_speeds` has `size() = 0` after the constructor; the
three fall speeds lie in its reserved storage. -/
theorem C18_fall_speeds_size_zero :
    (Collider.new demoEnv demoSlice 0 3 0 1).pc = 3 ∧
    (Collider.fall_speeds_vector demoEnv demoSlice 0 3 0 1).size = 0 ∧
    (Collider.fall_speeds_vector demoEnv demoSlice 0 3 0 1).storage = [1, 2, 3] := by
  decide!

/-! ## The divisor of `calculate` -/

/-- With `dt ≥ 0`, multiplicities `≥ 0`, an efficiency `≥ 0` and `PI ≥ 0`,
`weights(i)` is never positive. -/
theorem weights_nonpos (env : Env) (sps : List Superparticle) (first last out : Nat) (dt : ℚ)
    (hdt : 0 ≤ dt)
    (hN : ∀ m, m < last - first → 0 ≤ (sps.getD (first + m) default).N)
    (hE : ∀ a b, 0 ≤ env.collision_efficiency a b) (hPI : 0 ≤ env.PI)
    (i : Nat) (hi : i < last - first) :
    (Collider.new env sps first last out dt).weights i ≤ 0 := by
  rw [weights_eq env sps first last out dt i hi, hall_collision_kernal_same_speed]
  have hNp : ∀ j, j < last - first →
      0 ≤ ((Collider.new env sps first last out dt).particle j).N := fun j hj =>
    hN _ (ri_spec env sps first last out dt j hj).1
  apply Int.floor_nonpos
  apply mul_nonpos_of_nonneg_of_nonpos hdt
  simp only [neg_zero, zero_mul, zero_sub, neg_nonpos]
  apply Finset.sum_nonneg
  intro j hj
  rw [Finset.mem_Ico] at hj
  exact mul_nonneg (mul_nonneg (hall_collision_kernal_nonneg env _ _ _ _ hPI hE)
    (hNp i hi)) (hNp j hj.2)

/-- C19. For every particle at a sorted position that is not the last, with
multiplicity `N > 0`, under `dt ≥ 0`, all multiplicities `≥ 0` and an
efficiency `≥ 0` (and `PI ≥ 0`), the divisor `1 - dN / N` of the water-content
change, taken at the written `dN`, is `≥ 1`. -/
theorem C19_divisor_ge_one (env : Env) (sps : List Superparticle)
    (first last out : Nat) (dt : ℚ) (t : List SpMassTendencies)
    (hpc : first + 2 ≤ last) (hout : out + (last - first) ≤ t.length)
    (hdt : 0 ≤ dt)
    (hN : ∀ m, m < last - first → 0 ≤ (sps.getD (first + m) default).N)
    (hE : ∀ a b, 0 ≤ env.collision_efficiency a b) (hPI : 0 ≤ env.PI)
    (i : Nat) (hi : i < last - first - 1)
    (hNi : 0 < ((Collider.new env sps first last out dt).particle i).N) :
    1 ≤ 1 - (((_collide env sps first last t out dt).getD
        (out + ((Collider.new env sps first last out dt).ri i).2) default).dN : ℚ) /
      ((Collider.new env sps first last out dt).particle i).N := by
  rw [_collide_eq env sps first last t out dt hpc]
  have hinj := new_inj env sps first last out dt
  have hb := new_bound env sps first last out dt t hout
  have h := calculate_nonlast _ t hinj hb i hi
  unfold Collider.outAt at h
  have ho : (Collider.new env sps first last out dt).out = out := rfl
  rw [ho] at h
  rw [h]
  simp only []
  have hw := weights_nonpos env sps first last out dt hdt hN hE hPI i (by omega)
  have hwq : (((Collider.new env sps first last out dt).weights i : ℤ) : ℚ) ≤ 0 := by
    exact_mod_cast hw
  have hdiv : (((Collider.new env sps first last out dt).weights i : ℤ) : ℚ) /
      ((Collider.new env sps first last out dt).particle i).N ≤ 0 :=
    div_nonpos_of_nonpos_of_nonneg hwq (le_of_lt hNi)
  linarith

/-- C19 at a concrete slice: the sorted position `0` of `demoSlice`. -/
theorem C19_divisor_ge_one_witness :
    1 ≤ 1 - (((_collide demoEnv demoSlice 0 3 (List.replicate 3 SpMassTendencies.zero) 0 1).getD
        (0 + ((Collider.new demoEnv demoSlice 0 3 0 1).ri 0).2) default).dN : ℚ) /
      ((Collider.new demoEnv demoSlice 0 3 0 1).particle 0).N :=
  C19_divisor_ge_one demoEnv demoSlice 0 3 0 1 (List.replicate 3 SpMassTendencies.zero)
    (by decide) (by decide) (by norm_num)
    (by intro m hm; interval_cases m <;> norm_num [demoSlice])
    (by intro a b; norm_num [demoEnv]) (by norm_num [demoEnv]) 0 (by decide)
    (by decide!)

/-! ## The layer slices of `collide` -/

/-- On a range that the comparison splits into a part where it holds followed
by a part where it fails, the binary search returns the position of the
split. -/
theorem lower_bound_loop_split (sps : List Superparticle) (val : ℚ) (fuel : Nat) :
    ∀ first len, len ≤ fuel →
      (∀ i j, first ≤ i → i ≤ j → j < first + len →
        sp_zcmp (sps.getD j default) val = true → sp_zcmp (sps.getD i default) val = true) →
      (∀ i, first ≤ i → i < lower_bound_loop sps val fuel first len →
        sp_zcmp (sps.getD i default) val = true) ∧
      (∀ i, lower_bound_loop sps val fuel first len ≤ i → i < first + len →
        sp_zcmp (sps.getD i default) val = false) := by
  induction fuel with
  | zero =>
    intro first len hlen _
    simp only [lower_bound_loop]
    exact ⟨fun i h1 h2 => by omega, fun i h1 h2 => by omega⟩
  | succ n ih =>
    intro first len hlen hmono
    simp only [lower_bound_loop]
    split
    · exact ⟨fun i h1 h2 => by omega, fun i h1 h2 => by omega⟩
    · have h2 : len / 2 < len := Nat.div_lt_self (by omega) (by decide)
      split
      · rename_i hmid
        have hrec := ih (first + len / 2 + 1) (len - len / 2 - 1) (by omega)
          (fun i j hi hij hj => hmono i j (by omega) hij (by omega))
        refine ⟨fun i hi1 hi2 => ?_, fun i hi1 hi2 => hrec.2 i hi1 (by omega)⟩
        by_cases hc : i ≤ first + len / 2
        · exact hmono i (first + len / 2) hi1 hc (by omega) hmid
        · exact hrec.1 i (by omega) hi2
      · rename_i hmid
        have hrec := ih first (len / 2) (by omega)
          (fun i j hi hij hj => hmono i j hi hij (by omega))
        refine ⟨fun i hi1 hi2 => hrec.1 i hi1 hi2, fun i hi1 hi2 => ?_⟩
        by_cases hc : i < first + len / 2
        · exact hrec.2 i hi1 hc
        · by_contra hne
          have hp : sp_zcmp (sps.getD i default) val = true := by
            cases h : sp_zcmp (sps.getD i default) val
            · exact absurd h hne
            · rfl
          exact hmid (hmono (first + len / 2) i (by omega) (by omega) hi2 hp)

/-- On a z-ascending ensemble, `std::lower_bound(first, end, val, sp_zcmp)`
returns the first position from `first` on whose particle is not below
`val`. -/
theorem lower_bound_sorted (sps : List Superparticle) (first : Nat) (val : ℚ)
    (hz : ∀ i j, i ≤ j → j < sps.length → (sps.getD i default).z ≤ (sps.getD j default).z)
    (hf : first ≤ sps.length) :
    first ≤ lower_bound sps first sps.length val ∧
    lower_bound sps first sps.length val ≤ sps.length ∧
    (∀ i, first ≤ i → i < lower_bound sps first sps.length val →
      (sps.getD i default).z < val) ∧
    (∀ i, lower_bound sps first sps.length val ≤ i → i < sps.length →
      val ≤ (sps.getD i default).z) := by
  have hr := lower_bound_range sps first sps.length val hf
  have hs := lower_bound_loop_split sps val (sps.length - first) first (sps.length - first)
    (le_refl _) (fun i j _ hij hj hp => by
      have hzz := hz i j hij (by omega)
      unfold sp_zcmp at hp ⊢
      simp only [decide_eq_true_eq] at hp ⊢
      exact lt_of_le_of_lt hzz hp)
  refine ⟨hr.1, hr.2, fun i h1 h2 => ?_, fun i h1 h2 => ?_⟩
  · have := hs.1 i h1 h2
    unfold sp_zcmp at this
    simpa using this
  · have := hs.2 i h1 (by omega)
    unfold sp_zcmp at this
    simpa using this

/-- The slices of the level loop on a z-ascending ensemble and ascending
levels: the call for the level `rest[k]` gets the positions of the particles
between the level before it and `rest[k]`. -/
theorem collide_slices_sorted (sps : List Superparticle)
    (hz : ∀ i j, i ≤ j → j < sps.length → (sps.getD i default).z ≤ (sps.getD j default).z) :
    ∀ (rest : List ℚ) (prev : ℚ) (it1 : Nat), (prev :: rest).Sorted (· ≤ ·) →
      it1 ≤ sps.length →
      (∀ i, i < it1 → (sps.getD i default).z < prev) →
      (∀ i, it1 ≤ i → i < sps.length → prev ≤ (sps.getD i default).z) →
      ∀ k, k < rest.length →
        ∃ a b, (collide_slices sps it1 rest).getD k (0, 0, 0) = (a, b, a) ∧
          a ≤ b ∧ b ≤ sps.length ∧
          ∀ i, i < sps.length →
            ((a ≤ i ∧ i < b) ↔
              ((prev :: rest).getD k 0 ≤ (sps.getD i default).z ∧
                (sps.getD i default).z < rest.getD k 0)) := by
  intro rest
  induction rest with
  | nil => intro prev it1 _ _ _ _ k hk; simp at hk
  | cons lvl rest ih =>
    intro prev it1 hs hit hlo hhi k hk
    have hb := lower_bound_sorted sps it1 lvl hz hit
    have hpl : prev ≤ lvl := by
      have := List.rel_of_sorted_cons hs lvl (List.mem_cons_self _ _)
      exact this
    cases k with
    | zero =>
      refine ⟨it1, lower_bound sps it1 sps.length lvl, rfl, hb.1, hb.2.1, ?_⟩
      intro i hi
      simp only [List.getD_cons_zero]
      constructor
      · intro h
        exact ⟨hhi i h.1 hi, hb.2.2.1 i h.1 h.2⟩
      · intro h
        constructor
        · by_contra hc
          exact absurd (hlo i (by omega)) (not_lt.mpr h.1)
        · by_contra hc
          exact absurd (hb.2.2.2 i (by omega) hi) (not_le.mpr h.2)
    | succ k =>
      have hrec := ih lvl (lower_bound sps it1 sps.length lvl) (List.Sorted.of_cons hs) hb.2.1
        (fun i hi => by
          by_cases hc : i < it1
          · exact lt_of_lt_of_le (hlo i hc) hpl
          · exact hb.2.2.1 i (by omega) hi)
        (fun i h1 h2 => hb.2.2.2 i h1 h2) k (by simpa using hk)
      simpa [collide_slices] using hrec

/-- C11. On a z-ascending ensemble and an ascending sequence of levels,
`HallCollisions::collide` makes one call of `_collide` per layer; the call for
the layer between the levels `lvls[k]` and `lvls[k + 1]` gets one contiguous
range `[a, b)` of positions of the ensemble, which holds exactly the particles
with `lvls[k] ≤ z < lvls[k + 1]`, and its output position is `a`, the position
of the first particle of the slice. -/
theorem C11_layer_slices (sps : List Superparticle) (grid : Grid)
    (hz : ∀ i j, i ≤ j → j < sps.length → (sps.getD i default).z ≤ (sps.getD j default).z)
    (hl : grid.lvls.Sorted (· ≤ ·)) (k : Nat) (hk : k + 1 < grid.lvls.length) :
    ∃ a b, (HallCollisions.collide_calls sps grid).getD k (0, 0, 0) = (a, b, a) ∧
      a ≤ b ∧ b ≤ sps.length ∧
      ∀ i, i < sps.length →
        ((a ≤ i ∧ i < b) ↔
          (grid.lvls.getD k 0 ≤ (sps.getD i default).z ∧
            (sps.getD i default).z < grid.lvls.getD (k + 1) 0)) := by
  unfold HallCollisions.collide_calls
  cases hlv : grid.lvls with
  | nil => rw [hlv] at hk; simp at hk
  | cons lvl0 rest =>
    rw [hlv] at hl hk
    simp only []
    have hb := lower_bound_sorted sps 0 lvl0 hz (Nat.zero_le _)
    have h := collide_slices_sorted sps hz rest lvl0 (lower_bound sps 0 sps.length lvl0) hl
      hb.2.1 (fun i hi => hb.2.2.1 i (Nat.zero_le _) hi) (fun i h1 h2 => hb.2.2.2 i h1 h2)
      k (by simpa using hk)
    simpa using h

/-- C11 at a concrete input: the second layer of `twoLayerGrid` on `column`
is the range `[3, 4)`. -/
theorem C11_layer_slices_witness :
    (HallCollisions.collide_calls column twoLayerGrid).getD 1 (0, 0, 0) = (3, 4, 3) ∧
    ∃ a b, (HallCollisions.collide_calls column twoLayerGrid).getD 1 (0, 0, 0) = (a, b, a) ∧
      a ≤ b ∧ b ≤ column.length ∧
      ∀ i, i < column.length →
        ((a ≤ i ∧ i < b) ↔
          (twoLayerGrid.lvls.getD 1 0 ≤ (column.getD i default).z ∧
            (column.getD i default).z < twoLayerGrid.lvls.getD (1 + 1) 0)) :=
  ⟨by decide!,
    C11_layer_slices column twoLayerGrid
      (by
        intro i j hij hj
        have hj5 : j < 5 := hj
        interval_cases j <;> interval_cases i <;> norm_num [column])
      (by norm_num [twoLayerGrid]) 1 (by decide)⟩

/-! ## The layer partitioner `sort_layer` and `sortsps` -/

/-- The loop of `sort_layer` over the first `m` particles: every layer `L` below `n_lay` holds the
nucleated particles of layer index `L`, with their indices, in the order of
the ensemble. -/
theorem sort_layer_loop (sps : List Superparticle) (grid : Grid)
    (m : Nat) (hm : m ≤ sps.length) :
    ((List.range m).foldl (sort_layer_step sps grid) (List.replicate grid.n_lay [])).length =
      grid.n_lay ∧
    ∀ L, L < grid.n_lay →
      ((List.range m).foldl (sort_layer_step sps grid) (List.replicate grid.n_lay [])).getD L [] =
      (((List.range m).filter fun i =>
          (sps.getD i default).is_nucleated &&
            decide (grid.getlayindex (sps.getD i default).z = L)).map
        fun i => (⟨i, sps.getD i default⟩ : IndexSuperparticle)) := by
  induction m with
  | zero =>
    refine ⟨by simp, fun L hL => ?_⟩
    simp [List.getD_eq_getElem?_getD, List.getElem?_replicate, hL]
  | succ m ih =>
    obtain ⟨ihlen, ihlay⟩ := ih (by omega)
    rw [List.range_succ, List.foldl_append]
    simp only [List.foldl_cons, List.foldl_nil]
    generalize (List.range m).foldl (sort_layer_step sps grid) (List.replicate grid.n_lay []) =
      out at ihlen ihlay ⊢
    unfold sort_layer_step
    by_cases hn : (sps.getD m default).is_nucleated = true
    · rw [if_pos hn]
      refine ⟨by rw [List.length_set]; exact ihlen, fun L hL => ?_⟩
      rw [List.filter_append, List.map_append]
      by_cases hLe : grid.getlayindex (sps.getD m default).z = L
      · have hp : ((sps.getD m default).is_nucleated &&
            decide (grid.getlayindex (sps.getD m default).z = L)) = true := by
          rw [hn, hLe]; simp
        rw [hLe, getD_set_self _ _ _ _ (by rw [ihlen]; exact hL), ihlay L hL]
        simp only [List.filter_cons, List.filter_nil, hp, if_true, List.map_cons, List.map_nil]
      · have hp : ((sps.getD m default).is_nucleated &&
            decide (grid.getlayindex (sps.getD m default).z = L)) = false := by
          rw [hn]; simp only [Bool.true_and, decide_eq_false_iff_not]; exact hLe
        rw [getD_set_of_ne _ _ _ hLe, ihlay L hL]
        simp only [List.filter_cons, List.filter_nil, hp, Bool.false_eq_true, if_false,
          List.map_nil, List.append_nil]
    · rw [if_neg hn]
      refine ⟨ihlen, fun L hL => ?_⟩
      have hp : ((sps.getD m default).is_nucleated &&
          decide (grid.getlayindex (sps.getD m default).z = L)) = false := by
        rw [Bool.eq_false_iff.mpr hn]; rfl
      rw [List.filter_append, List.map_append, ihlay L hL]
      simp only [List.filter_cons, List.filter_nil, hp, Bool.false_eq_true, if_false,
        List.map_nil, List.append_nil]

/-- The layers of `sort_layer`, in closed form. -/
theorem sort_layer_spec (sps : List Superparticle) (grid : Grid)
 :
    (sort_layer sps grid).length = grid.n_lay ∧
    ∀ L, L < grid.n_lay →
      (sort_layer sps grid).getD L [] =
        (((List.range sps.length).filter fun i =>
            (sps.getD i default).is_nucleated &&
              decide (grid.getlayindex (sps.getD i default).z = L)).map
          fun i => (⟨i, sps.getD i default⟩ : IndexSuperparticle)) :=
  sort_layer_loop sps grid sps.length (le_refl _)

/-- A layer of `sortsps` is the layer of `sort_layer`, sorted. -/
theorem sortsps_getD (sps : List Superparticle) (grid : Grid) (L : Nat) :
    (sortsps sps grid).getD L [] = List.insertionSort radius_le ((sort_layer sps grid).getD L []) := by
  unfold sortsps
  by_cases h : L < (sort_layer sps grid).length
  · simp [List.getD_eq_getElem?_getD, List.getElem?_eq_getElem h]
  · have h2 : (sort_layer sps grid).length ≤ L := by omega
    simp [List.getD_eq_getElem?_getD, List.getElem?_eq_none h2]

/-- An entry `(i, sps[i])` is in the layer `L` of `sort_layer` exactly for a
nucleated particle of layer index `L`, and then once. -/
theorem sort_layer_count (sps : List Superparticle) (grid : Grid)
    (L : Nat) (hL : L < grid.n_lay) (i : Nat) (hi : i < sps.length) :
    ((sort_layer sps grid).getD L []).count ⟨i, sps.getD i default⟩ =
      if (sps.getD i default).is_nucleated = true ∧
          grid.getlayindex (sps.getD i default).z = L then 1 else 0 := by
  rw [(sort_layer_spec sps grid).2 L hL]
  have hnd : (((List.range sps.length).filter fun i =>
      (sps.getD i default).is_nucleated &&
        decide (grid.getlayindex (sps.getD i default).z = L)).map
      fun i => (⟨i, sps.getD i default⟩ : IndexSuperparticle)).Nodup := by
    apply List.Nodup.map
    · intro a b hab
      exact congrArg IndexSuperparticle.i hab
    · exact (List.nodup_range _).filter _
  split
  · rename_i h
    apply List.count_eq_one_of_mem hnd
    simp only [List.mem_map, List.mem_filter, List.mem_range, Bool.and_eq_true,
      decide_eq_true_eq]
    exact ⟨i, ⟨hi, h⟩, rfl⟩
  · rename_i h
    apply List.count_eq_zero_of_not_mem
    simp only [List.mem_map, List.mem_filter, List.mem_range, Bool.and_eq_true,
      decide_eq_true_eq, not_exists, not_and]
    intro j hj hje
    have hji : j = i := congrArg IndexSuperparticle.i hje
    subst hji
    exact h hj.2

/-- Every entry of a layer of `sort_layer` is a nucleated particle of the
ensemble with its index. -/
theorem sort_layer_mem (sps : List Superparticle) (grid : Grid)
    (L : Nat) (hL : L < grid.n_lay) (e : IndexSuperparticle)
    (he : e ∈ (sort_layer sps grid).getD L []) :
    e.i < sps.length ∧ e.sp = sps.getD e.i default ∧ e.sp.is_nucleated = true ∧
      grid.getlayindex e.sp.z = L := by
  rw [(sort_layer_spec sps grid).2 L hL] at he
  simp only [List.mem_map, List.mem_filter, List.mem_range, Bool.and_eq_true,
    decide_eq_true_eq] at he
  obtain ⟨j, ⟨hj, hn, hz⟩, rfl⟩ := he
  exact ⟨hj, rfl, hn, hz⟩

/-- C14. For every ensemble and grid, every layer of the result of `sortsps`
is in ascending order of radius: of two entries of a layer, the earlier one
has a radius `≤` that of the later one (equal radii allowed). -/
theorem C14_sortsps_ascending (sps : List Superparticle) (grid : Grid) :
    ∀ layer ∈ sortsps sps grid,
      layer.Pairwise fun a b => a.sp.radius ≤ b.sp.radius := by
  intro layer hmem
  unfold sortsps at hmem
  rw [List.mem_map] at hmem
  obtain ⟨l, _, rfl⟩ := hmem
  exact List.sorted_insertionSort radius_le l

/-- C14 at a concrete input: the layer `[0, 1)` of `layered`, given in
descending radius, comes out ascending. -/
theorem C14_sortsps_ascending_witness :
    (sortsps layered twoLayerGrid).getD 0 [] =
      [⟨2, ⟨1, 1 / 2, 2, true, 1⟩⟩, ⟨0, ⟨1, 1 / 4, 4, true, 2⟩⟩] ∧
    ((sortsps layered twoLayerGrid).getD 0 []).Pairwise
      (fun a b => a.sp.radius ≤ b.sp.radius) :=
  ⟨by decide!, C14_sortsps_ascending layered twoLayerGrid _ (by decide!)⟩

/-- C15. Provided `grid.getlayindex(z) < grid.n_lay` for every nucleated
particle, `sort_layer` and `sortsps` return `grid.n_lay` layers; for every
index `i` of the ensemble and every layer `L`, the pair `(i, sps[i])` occurs
once in the layer `L` if `sps[i]` is nucleated and `L` is
`grid.getlayindex(sps[i].z)`, and not at all otherwise; and every entry of a
layer is such a pair. The proviso keeps every `push_back` of `sort_layer`
inside the vector of layers. -/
theorem C15_partition_membership (sps : List Superparticle) (grid : Grid)
    (_hlay : ∀ i, i < sps.length → (sps.getD i default).is_nucleated = true →
      grid.getlayindex (sps.getD i default).z < grid.n_lay) :
    (sort_layer sps grid).length = grid.n_lay ∧
    (sortsps sps grid).length = grid.n_lay ∧
    ∀ L, L < grid.n_lay →
      (∀ i, i < sps.length →
        ((sort_layer sps grid).getD L []).count ⟨i, sps.getD i default⟩ =
          (if (sps.getD i default).is_nucleated = true ∧
            grid.getlayindex (sps.getD i default).z = L then 1 else 0) ∧
        ((sortsps sps grid).getD L []).count ⟨i, sps.getD i default⟩ =
          (if (sps.getD i default).is_nucleated = true ∧
            grid.getlayindex (sps.getD i default).z = L then 1 else 0)) ∧
      (∀ e, e ∈ (sort_layer sps grid).getD L [] ∨ e ∈ (sortsps sps grid).getD L [] →
        e.i < sps.length ∧ e.sp = sps.getD e.i default ∧ e.sp.is_nucleated = true ∧
          grid.getlayindex e.sp.z = L) := by
  have hspec := sort_layer_spec sps grid
  refine ⟨hspec.1, by unfold sortsps; rw [List.length_map]; exact hspec.1, fun L hL => ⟨?_, ?_⟩⟩
  · intro i hi
    refine ⟨sort_layer_count sps grid L hL i hi, ?_⟩
    rw [sortsps_getD, (List.perm_insertionSort radius_le _).count_eq]
    exact sort_layer_count sps grid L hL i hi
  · intro e he
    apply sort_layer_mem sps grid L hL e
    rcases he with he | he
    · exact he
    · rw [sortsps_getD] at he
      exact (List.perm_insertionSort radius_le _).mem_iff.mp he

/-- C15 at a concrete input: the three particles `layered` on
`twoLayerGrid`. -/
theorem C15_partition_membership_witness :
    sortsps layered twoLayerGrid =
      [[⟨2, ⟨1, 1 / 2, 2, true, 1⟩⟩, ⟨0, ⟨1, 1 / 4, 4, true, 2⟩⟩], []] ∧
    (sort_layer layered twoLayerGrid).length = twoLayerGrid.n_lay ∧
    (sortsps layered twoLayerGrid).length = twoLayerGrid.n_lay ∧
    ∀ L, L < twoLayerGrid.n_lay →
      (∀ i, i < layered.length →
        ((sort_layer layered twoLayerGrid).getD L []).count ⟨i, layered.getD i default⟩ =
          (if (layered.getD i default).is_nucleated = true ∧
            twoLayerGrid.getlayindex (layered.getD i default).z = L then 1 else 0) ∧
        ((sortsps layered twoLayerGrid).getD L []).count ⟨i, layered.getD i default⟩ =
          (if (layered.getD i default).is_nucleated = true ∧
            twoLayerGrid.getlayindex (layered.getD i default).z = L then 1 else 0)) ∧
      (∀ e, e ∈ (sort_layer layered twoLayerGrid).getD L [] ∨
          e ∈ (sortsps layered twoLayerGrid).getD L [] →
        e.i < layered.length ∧ e.sp = layered.getD e.i default ∧ e.sp.is_nucleated = true ∧
          twoLayerGrid.getlayindex e.sp.z = L) :=
  ⟨by decide!,
    C15_partition_membership layered twoLayerGrid (by
      intro i hi _
      have hi3 : i < 3 := hi
      interval_cases i <;> decide!)⟩

/-! ## The slice in another order -/

/-- With pairwise different radii in the slice, the radii are strictly
ascending along `ridx`. -/
theorem ridx_strict (env : Env) (sps : List Superparticle) (first last out : Nat) (dt : ℚ)
    (hdist : ∀ k k', k < last - first → k' < last - first →
      (sps.getD (first + k) default).radius = (sps.getD (first + k') default).radius → k = k') :
    (Collider.new env sps first last out dt).ridx.Pairwise fun a b => a.1 < b.1 := by
  have hnd : ((Collider.new env sps first last out dt).ridx.map Prod.fst).Nodup := by
    rw [((ridx_perm env sps first last out dt).map Prod.fst).nodup_iff, List.map_map]
    apply List.Nodup.map_on _ (List.nodup_range _)
    intro x hx y hy hxy
    rw [List.mem_range] at hx hy
    exact hdist x y hx hy hxy
  have hne : (Collider.new env sps first last out dt).ridx.Pairwise fun a b => a.1 ≠ b.1 :=
    List.Pairwise.of_map Prod.fst (fun _ _ h => h) hnd
  exact ((ridx_sorted env sps first last out dt).and hne).imp fun h => by
    rcases h.1 with h1 | ⟨h1, _⟩
    · exact h1
    · exact absurd h1 h.2

/-- The sorted index of a slice given in another order: with pairwise
different radii, `ridx` of the reordered slice is `ridx` of the original slice
with every local index replaced by the position the particle moved to. -/
theorem ridx_reordered (env : Env) (sps sps' : List Superparticle) (first last out : Nat)
    (dt : ℚ) (σ : Nat → Nat)
    (hdist : ∀ k k', k < last - first → k' < last - first →
      (sps.getD (first + k) default).radius = (sps.getD (first + k') default).radius → k = k')
    (hσ : ∀ k, k < last - first →
      σ k < last - first ∧ sps'.getD (first + σ k) default = sps.getD (first + k) default) :
    (Collider.new env sps' first last out dt).ridx =
      (Collider.new env sps first last out dt).ridx.map fun p => (p.1, σ p.2) := by
  have hinj : ∀ x ∈ List.range (last - first), ∀ y ∈ List.range (last - first),
      σ x = σ y → x = y := by
    intro x hx y hy hxy
    rw [List.mem_range] at hx hy
    apply hdist x y hx hy
    rw [← (hσ x hx).2, ← (hσ y hy).2, hxy]
  have hrange : ((List.range (last - first)).map σ).Perm (List.range (last - first)) := by
    apply List.Subperm.perm_of_length_le
    · apply List.subperm_of_subset ((List.nodup_range _).map_on hinj)
      intro m hm
      rw [List.mem_map] at hm
      obtain ⟨k, hk, rfl⟩ := hm
      rw [List.mem_range] at hk ⊢
      exact (hσ k hk).1
    · simp
  have hperm : ((Collider.new env sps first last out dt).ridx.map fun p => (p.1, σ p.2)).Perm
      ((List.range (last - first)).map fun k => ((sps'.getD (first + k) default).radius, k)) := by
    refine ((ridx_perm env sps first last out dt).map _).trans ?_
    rw [List.map_map]
    have hmap : (List.range (last - first)).map
          ((fun p : ℚ × Nat => (p.1, σ p.2)) ∘
            fun k => ((sps.getD (first + k) default).radius, k)) =
        ((List.range (last - first)).map σ).map
          fun k => ((sps'.getD (first + k) default).radius, k) := by
      rw [List.map_map]
      apply List.map_congr_left
      intro k hk
      rw [List.mem_range] at hk
      simp only [Function.comp]
      rw [(hσ k hk).2]
    rw [hmap]
    exact hrange.map _
  have hsorted : ((Collider.new env sps first last out dt).ridx.map
      fun p => (p.1, σ p.2)).Sorted ridx_le :=
    (ridx_strict env sps first last out dt hdist).map _ fun _ _ h => Or.inl h
  exact List.eq_of_perm_of_sorted ((ridx_perm env sps' first last out dt).trans hperm.symm)
    (ridx_sorted env sps' first last out dt) hsorted

/-- The entry of the sorted index at a position, for the reordered slice. -/
theorem ri_reordered (env : Env) (sps sps' : List Superparticle) (first last out : Nat)
    (dt : ℚ) (σ : Nat → Nat)
    (hdist : ∀ k k', k < last - first → k' < last - first →
      (sps.getD (first + k) default).radius = (sps.getD (first + k') default).radius → k = k')
    (hσ : ∀ k, k < last - first →
      σ k < last - first ∧ sps'.getD (first + σ k) default = sps.getD (first + k) default)
    (i : Nat) (hi : i < last - first) :
    (Collider.new env sps' first last out dt).ri i =
      (((Collider.new env sps first last out dt).ri i).1,
        σ ((Collider.new env sps first last out dt).ri i).2) := by
  have hlen := ridx_length env sps first last out dt
  have hi2 : i < (Collider.new env sps first last out dt).ridx.length := by omega
  unfold Collider.ri
  rw [ridx_reordered env sps sps' first last out dt σ hdist hσ]
  rw [getD_of_lt _ _ _ (by simpa using hi2), getD_of_lt _ _ _ hi2]
  simp

/-- The particle at a sorted position is the same for the slice and for the
reordered slice. -/
theorem particle_reordered (env : Env) (sps sps' : List Superparticle) (first last out : Nat)
    (dt : ℚ) (σ : Nat → Nat)
    (hdist : ∀ k k', k < last - first → k' < last - first →
      (sps.getD (first + k) default).radius = (sps.getD (first + k') default).radius → k = k')
    (hσ : ∀ k, k < last - first →
      σ k < last - first ∧ sps'.getD (first + σ k) default = sps.getD (first + k) default)
    (i : Nat) (hi : i < last - first) :
    (Collider.new env sps' first last out dt).particle i =
      (Collider.new env sps first last out dt).particle i := by
  unfold Collider.particle
  rw [ri_reordered env sps sps' first last out dt σ hdist hσ i hi]
  exact (hσ _ (ri_spec env sps first last out dt i hi).1).2

/-- `weights(i)` is the same for the slice and for the reordered slice. -/
theorem weights_reordered (env : Env) (sps sps' : List Superparticle) (first last out : Nat)
    (dt : ℚ) (σ : Nat → Nat)
    (hdist : ∀ k k', k < last - first → k' < last - first →
      (sps.getD (first + k) default).radius = (sps.getD (first + k') default).radius → k = k')
    (hσ : ∀ k, k < last - first →
      σ k < last - first ∧ sps'.getD (first + σ k) default = sps.getD (first + k) default)
    (i : Nat) (hi : i < last - first) :
    (Collider.new env sps' first last out dt).weights i =
      (Collider.new env sps first last out dt).weights i := by
  rw [weights_eq env sps' first last out dt i hi, weights_eq env sps first last out dt i hi,
    particle_reordered env sps sps' first last out dt σ hdist hσ i hi]
  congr 3
  apply Finset.sum_congr rfl
  intro j hj
  rw [particle_reordered env sps sps' first last out dt σ hdist hσ j (Finset.mem_Ico.mp hj).2]

/-- `mass(i)` is the same for the slice and for the reordered slice. -/
theorem mass_reordered (env : Env) (sps sps' : List Superparticle) (first last out : Nat)
    (dt : ℚ) (σ : Nat → Nat)
    (hdist : ∀ k k', k < last - first → k' < last - first →
      (sps.getD (first + k) default).radius = (sps.getD (first + k') default).radius → k = k')
    (hσ : ∀ k, k < last - first →
      σ k < last - first ∧ sps'.getD (first + σ k) default = sps.getD (first + k) default)
    (i : Nat) (hi : i < last - first) :
    (Collider.new env sps' first last out dt).mass i =
      (Collider.new env sps first last out dt).mass i := by
  rw [mass_eq env sps' first last out dt i hi, mass_eq env sps first last out dt i hi,
    particle_reordered env sps sps' first last out dt σ hdist hσ i hi]
  congr 2
  · congr 1
    apply Finset.sum_congr rfl
    intro j hj
    rw [particle_reordered env sps sps' first last out dt σ hdist hσ j
      (by have := Finset.mem_range.mp hj; omega)]
  · apply Finset.sum_congr rfl
    intro j hj
    rw [particle_reordered env sps sps' first last out dt σ hdist hσ j (Finset.mem_Ico.mp hj).2]

theorem getD_replicate_zero (n m : Nat) :
    (List.replicate n SpMassTendencies.zero).getD m default = SpMassTendencies.zero := by
  by_cases h : m < n
  · simp [List.getD_eq_getElem?_getD, List.getElem?_replicate, h]
  · simp [List.getD_eq_getElem?_getD, List.getElem?_replicate, h]
    rfl

/-- C20. For a slice of `pc ≥ 2` particles with pairwise different radii and
the same slice given in another order (the particle at the slice position `k`
standing at the position `σ k`), the Collider, started on a value-initialised
tendency vector, writes to the output slot `σ k` of the reordered run exactly
the tendency it writes to the slot `k` of the original run. -/
theorem C20_order_independence (env : Env) (sps sps' : List Superparticle)
    (first last out : Nat) (dt : ℚ) (n : Nat) (σ : Nat → Nat)
    (hpc : first + 2 ≤ last) (hout : out + (last - first) ≤ n)
    (hdist : ∀ k k', k < last - first → k' < last - first →
      (sps.getD (first + k) default).radius = (sps.getD (first + k') default).radius → k = k')
    (hσ : ∀ k, k < last - first →
      σ k < last - first ∧ sps'.getD (first + σ k) default = sps.getD (first + k) default)
    (k : Nat) (hk : k < last - first) :
    (_collide env sps' first last (List.replicate n SpMassTendencies.zero) out dt).getD
        (out + σ k) default =
      (_collide env sps first last (List.replicate n SpMassTendencies.zero) out dt).getD
        (out + k) default := by
  rw [_collide_eq env sps' first last _ out dt hpc, _collide_eq env sps first last _ out dt hpc]
  obtain ⟨i, hi, hik⟩ := ri_snd_surj env sps first last out dt k hk
  have hri := ri_reordered env sps sps' first last out dt σ hdist hσ i hi
  have hik' : ((Collider.new env sps' first last out dt).ri i).2 = σ k := by
    rw [hri, hik]
  have hlen : out + (last - first) ≤ (List.replicate n SpMassTendencies.zero).length := by
    simpa using hout
  have hpcv : (Collider.new env sps first last out dt).pc = last - first := rfl
  have hpcv' : (Collider.new env sps' first last out dt).pc = last - first := rfl
  have ho : (Collider.new env sps first last out dt).out = out := rfl
  have ho' : (Collider.new env sps' first last out dt).out = out := rfl
  have hpart := particle_reordered env sps sps' first last out dt σ hdist hσ i hi
  unfold Collider.particle at hpart
  rw [hik', hik] at hpart
  by_cases hl : i = last - first - 1
  · have h := calculate_last _ _ (by rw [hpcv]; omega) (new_inj env sps first last out dt)
      (new_bound env sps first last out dt _ hlen)
    have h' := calculate_last _ _ (by rw [hpcv']; omega) (new_inj env sps' first last out dt)
      (new_bound env sps' first last out dt _ hlen)
    rw [hpcv, ← hl] at h
    rw [hpcv', ← hl] at h'
    unfold Collider.outAt at h h'
    rw [ho, hik] at h
    rw [ho', hik'] at h'
    rw [h, h', getD_replicate_zero, getD_replicate_zero,
      mass_reordered env sps sps' first last out dt σ hdist hσ i hi]
  · have h := calculate_nonlast _ _ (new_inj env sps first last out dt)
      (new_bound env sps first last out dt _ hlen) i (by rw [hpcv]; omega)
    have h' := calculate_nonlast _ _ (new_inj env sps' first last out dt)
      (new_bound env sps' first last out dt _ hlen) i (by rw [hpcv']; omega)
    unfold Collider.outAt at h h'
    rw [ho, hik] at h
    rw [ho', hik', hpart] at h'
    rw [h, h', weights_reordered env sps sps' first last out dt σ hdist hσ i hi,
      mass_reordered env sps sps' first last out dt σ hdist hσ i hi]
    rfl

/-- C20 at a concrete input: `demoSlice` and `demoSliceShifted`, for the
particle at the position `0`, which moves to the position `1`. -/
theorem C20_order_independence_witness :
    (_collide demoEnv demoSliceShifted 0 3 (List.replicate 3 SpMassTendencies.zero) 0 1).getD
        (0 + demoShift 0) default =
      (_collide demoEnv demoSlice 0 3 (List.replicate 3 SpMassTendencies.zero) 0 1).getD
        (0 + 0) default :=
  C20_order_independence demoEnv demoSlice demoSliceShifted 0 3 0 1 3 demoShift
    (by decide) (by decide)
    (by
      intro k k' hk hk' h
      have hk3 : k < 3 := hk
      have hk3' : k' < 3 := hk'
      interval_cases k <;> interval_cases k' <;> first | rfl | (norm_num [demoSlice] at h))
    (by
      intro k hk
      have hk3 : k < 3 := hk
      interval_cases k <;> decide!)
    0 (by decide)

/-! ## The arguments of the efficiency provider -/

/-- The kernel reads the efficiency at the arguments `efficiency_args r R`. -/
theorem hall_collision_kernal_args (env : Env) (r R fs FS : ℚ) :
    hall_collision_kernal env r R fs FS =
      env.PI * (R + r) * (R + r) * |FS - fs| *
        env.collision_efficiency (efficiency_args r R).1 (efficiency_args r R).2 := rfl

/-- A kernel evaluation of the position `i` with a later position `j`, as in
`weights` and in `from_larger`: the efficiency is read at the radius of `j`,
which is the larger one, and at a ratio `≤ 1`. -/
theorem efficiency_args_later (env : Env) (sps : List Superparticle) (first last out : Nat)
    (dt : ℚ) (i j : Nat) (hij : i < j) (hj : j < last - first)
    (hr : 0 ≤ ((Collider.new env sps first last out dt).ri i).1) :
    ((Collider.new env sps first last out dt).ri i).1 ≤
      ((Collider.new env sps first last out dt).ri j).1 ∧
    (efficiency_args ((Collider.new env sps first last out dt).ri i).1
      ((Collider.new env sps first last out dt).ri j).1).1 =
      ((Collider.new env sps first last out dt).ri j).1 * 1000000 ∧
    (efficiency_args ((Collider.new env sps first last out dt).ri i).1
      ((Collider.new env sps first last out dt).ri j).1).2 ≤ 1 := by
  have hle := ri_fst_mono env sps first last out dt i j hij hj
  refine ⟨hle, rfl, ?_⟩
  unfold efficiency_args
  simp only []
  exact div_le_one_of_le₀ hle (le_trans hr hle)

/-- A kernel evaluation of the position `i` with an earlier position `j`, as
in `from_smaller`: the efficiency is read at the radius of `j`, which is the
smaller one, and at a ratio `≥ 1`. -/
theorem efficiency_args_earlier (env : Env) (sps : List Superparticle) (first last out : Nat)
    (dt : ℚ) (i j : Nat) (hji : j < i) (hi : i < last - first)
    (hr : 0 < ((Collider.new env sps first last out dt).ri j).1) :
    ((Collider.new env sps first last out dt).ri j).1 ≤
      ((Collider.new env sps first last out dt).ri i).1 ∧
    (efficiency_args ((Collider.new env sps first last out dt).ri i).1
      ((Collider.new env sps first last out dt).ri j).1).1 =
      ((Collider.new env sps first last out dt).ri j).1 * 1000000 ∧
    1 ≤ (efficiency_args ((Collider.new env sps first last out dt).ri i).1
      ((Collider.new env sps first last out dt).ri j).1).2 := by
  have hle := ri_fst_mono env sps first last out dt j i hji hi
  refine ⟨hle, rfl, ?_⟩
  unfold efficiency_args
  simp only []
  rw [one_le_div hr]
  exact hle

/-- C17, evaluated at a failing input. For the slice `demoSlice` (radii `1`,
`2`, `3` in sorted order) the loop `from_smaller` of `mass(2)` reads the
efficiency at `(1e6, 3)` and `(2e6, 3/2)`: at the smaller radius and at a
ratio above `1`, where `weights` and `from_larger` read it at the larger
radius and a ratio below `1`. With an efficiency that is `0` above the ratio
`1`, `mass(2)` is `27` instead of `3003`. -/
theorem C17_from_smaller_arguments :
    (Collider.new demoEnv demoSlice 0 3 0 1).ridx = [(1, 1), (2, 0), (3, 2)] ∧
    (Collider.new demoEnv demoSlice 0 3 0 1).from_smaller_efficiency_args 2 =
      [(1000000, 3), (2000000, 3 / 2)] ∧
    (Collider.new demoEnv demoSlice 0 3 0 1).weights_efficiency_args 0 =
      [(2000000, 1 / 2), (3000000, 1 / 3)] ∧
    (Collider.new demoEnv demoSlice 0 3 0 1).from_larger_efficiency_args 0 =
      [(2000000, 1 / 2), (3000000, 1 / 3)] ∧
    (Collider.new ratioEnv demoSlice 0 3 0 1).mass 2 = 27 ∧
    (Collider.new demoEnv demoSlice 0 3 0 1).mass 2 = 3003 := by
  decide!

/-! ## Self-collisions, the zero time step, over-depletion -/

/-- `weights(i)` is the floor of `dt` times the rate. -/
theorem weights_eq_floor_rate (c : Collider) (i : Nat) :
    c.weights i = ⌊c.dt * c.rate i⌋ := rfl

/-- With `dt = 0`, `mass(i)` is `0`. -/
theorem mass_zero_dt (c : Collider) (i : Nat) (hdt : c.dt = 0) : c.mass i = 0 := by
  unfold Collider.mass
  simp only [hdt, zero_mul]

/-- With `dt = 0`, `weights(i)` is `0`. -/
theorem weights_zero_dt (c : Collider) (i : Nat) (hdt : c.dt = 0) : c.weights i = 0 := by
  rw [weights_eq_floor_rate, hdt, zero_mul]
  exact Int.floor_zero

/-- C23. For a slice of `pc ≥ 2` particles with non-zero multiplicities and
`dt = 0`, every particle at a sorted position that is not the last gets
`dN = 0` and `dqc = -qc`, and the particle sorted last gets `dqc = 0`. -/
theorem C23_zero_time_step (env : Env) (sps : List Superparticle)
    (first last out : Nat) (t : List SpMassTendencies)
    (hpc : first + 2 ≤ last) (hout : out + (last - first) ≤ t.length)
    (_hN : ∀ m, m < last - first → (sps.getD (first + m) default).N ≠ 0) :
    (∀ i, i < last - first - 1 →
      ((_collide env sps first last t out 0).getD
          (out + ((Collider.new env sps first last out 0).ri i).2) default).dN = 0 ∧
      ((_collide env sps first last t out 0).getD
          (out + ((Collider.new env sps first last out 0).ri i).2) default).dqc =
        -((Collider.new env sps first last out 0).particle i).qc) ∧
    ((_collide env sps first last t out 0).getD
      (out + ((Collider.new env sps first last out 0).ri (last - first - 1)).2) default).dqc =
      0 := by
  rw [_collide_eq env sps first last t out 0 hpc]
  have hinj := new_inj env sps first last out 0
  have hb := new_bound env sps first last out 0 t hout
  have ho : (Collider.new env sps first last out 0).out = out := rfl
  have hdt : (Collider.new env sps first last out 0).dt = 0 := rfl
  have hpcv : (Collider.new env sps first last out 0).pc = last - first := rfl
  constructor
  · intro i hi
    have h := calculate_nonlast _ t hinj hb i hi
    unfold Collider.outAt at h
    rw [ho] at h
    rw [h]
    simp only [weights_zero_dt _ i hdt, mass_zero_dt _ i hdt]
    refine ⟨trivial, ?_⟩
    unfold Collider.particle
    simp
  · have h := calculate_last _ t (by rw [hpcv]; omega) hinj hb
    rw [hpcv] at h
    unfold Collider.outAt at h
    rw [ho] at h
    rw [h]
    exact mass_zero_dt _ _ hdt

/-- C23 at a concrete slice: `demoSlice` with `dt = 0`. -/
theorem C23_zero_time_step_witness :
    (∀ i, i < 3 - 0 - 1 →
      ((_collide demoEnv demoSlice 0 3 (List.replicate 3 SpMassTendencies.zero) 0 0).getD
          (0 + ((Collider.new demoEnv demoSlice 0 3 0 0).ri i).2) default).dN = 0 ∧
      ((_collide demoEnv demoSlice 0 3 (List.replicate 3 SpMassTendencies.zero) 0 0).getD
          (0 + ((Collider.new demoEnv demoSlice 0 3 0 0).ri i).2) default).dqc =
        -((Collider.new demoEnv demoSlice 0 3 0 0).particle i).qc) ∧
    ((_collide demoEnv demoSlice 0 3 (List.replicate 3 SpMassTendencies.zero) 0 0).getD
      (0 + ((Collider.new demoEnv demoSlice 0 3 0 0).ri (3 - 0 - 1)).2) default).dqc = 0 :=
  C23_zero_time_step demoEnv demoSlice 0 3 0 (List.replicate 3 SpMassTendencies.zero)
    (by decide) (by decide)
    (by intro m hm; interval_cases m <;> norm_num [demoSlice])

/-- The sorted index of a slice of two particles given in ascending radius. -/
theorem ridx_pair (env : Env) (a b : Superparticle) (dt : ℚ) (hab : a.radius < b.radius) :
    (Collider.new env [a, b] 0 2 0 dt).ridx = [(a.radius, 0), (b.radius, 1)] := by
  have hle : ridx_le (a.radius, 0) (b.radius, 1) := Or.inl hab
  simp [Collider.new, List.range_succ, List.insertionSort, List.orderedInsert, hle]

/-- The count change of the smaller particle of a slice of two particles
given in ascending radius. -/
theorem pair_dN (env : Env) (a b : Superparticle) (dt : ℚ) (hab : a.radius < b.radius) :
    ((_collide env [a, b] 0 2 (List.replicate 2 SpMassTendencies.zero) 0 dt).getD 0
      default).dN =
      ⌊dt * -(hall_collision_kernal env a.radius b.radius (env.fall_speed a.radius)
        (env.fall_speed b.radius) * a.N * b.N)⌋ := by
  have hridx := ridx_pair env a b dt hab
  have hri0 : (Collider.new env [a, b] 0 2 0 dt).ri 0 = (a.radius, 0) := by
    unfold Collider.ri
    rw [hridx]
    rfl
  have hri1 : (Collider.new env [a, b] 0 2 0 dt).ri 1 = (b.radius, 1) := by
    unfold Collider.ri
    rw [hridx]
    rfl
  have hp0 : (Collider.new env [a, b] 0 2 0 dt).particle 0 = a := by
    unfold Collider.particle Collider.sp
    rw [hri0]
    rfl
  have hp1 : (Collider.new env [a, b] 0 2 0 dt).particle 1 = b := by
    unfold Collider.particle Collider.sp
    rw [hri1]
    rfl
  rw [_collide_eq env _ 0 2 _ 0 _ (by decide)]
  have h := calculate_nonlast _ (List.replicate 2 SpMassTendencies.zero)
    (new_inj env [a, b] 0 2 0 dt) (new_bound env [a, b] 0 2 0 dt _ (by decide)) 0
    (by show 0 < 2 - 0 - 1; decide)
  unfold Collider.outAt at h
  rw [hri0] at h
  have ho : (Collider.new env [a, b] 0 2 0 dt).out = 0 := rfl
  rw [ho] at h
  have h2 := congrArg SpMassTendencies.dN h
  simp only [Nat.add_zero] at h2
  rw [h2, weights_eq env _ 0 2 0 _ 0 (by decide), hall_collision_kernal_same_speed]
  have hIco : Finset.Ico (0 + 1) (2 - 0) = {1} := by decide
  rw [hIco, Finset.sum_singleton, hp0, hp1]
  congr 2
  ring

/-- C24. Over-depletion is possible: with the efficiency constantly `1`, a
positive `PI` and two positive radii `r < R` of different fall speeds, there
are positive multiplicities and a time step `dt > 0` for which the count
change written for the smaller particle of the two-particle slice satisfies
`dN < -N`, so that `N + dN < 0`. A smaller particle of multiplicity `1` with
`dt = 2 / K` gets `dN = -2`. -/
theorem C24_over_depletion (env : Env) (hPI : 0 < env.PI)
    (hE : ∀ a b, env.collision_efficiency a b = 1) (r R : ℚ) (hr : 0 < r) (hrR : r < R)
    (hfs : env.fall_speed r ≠ env.fall_speed R) :
    ∃ N1 N2 dt : ℚ, 0 < N1 ∧ 0 < N2 ∧ 0 < dt ∧
      (((_collide env [⟨0, 0, N1, true, r⟩, ⟨0, 0, N2, true, R⟩] 0 2
          (List.replicate 2 SpMassTendencies.zero) 0 dt).getD 0 default).dN : ℚ) < -N1 ∧
      N1 + (((_collide env [⟨0, 0, N1, true, r⟩, ⟨0, 0, N2, true, R⟩] 0 2
          (List.replicate 2 SpMassTendencies.zero) 0 dt).getD 0 default).dN : ℚ) < 0 := by
  have hK : 0 < hall_collision_kernal env r R (env.fall_speed r) (env.fall_speed R) := by
    unfold hall_collision_kernal
    rw [hE, mul_one]
    have h1 : 0 < R + r := by linarith
    have h2 : 0 < |env.fall_speed R - env.fall_speed r| :=
      abs_pos.mpr (sub_ne_zero.mpr (Ne.symm hfs))
    positivity
  refine ⟨1, 1, 2 / hall_collision_kernal env r R (env.fall_speed r) (env.fall_speed R),
    by norm_num, by norm_num, by positivity, ?_⟩
  have hres := pair_dN env ⟨0, 0, 1, true, r⟩ ⟨0, 0, 1, true, R⟩
    (2 / hall_collision_kernal env r R (env.fall_speed r) (env.fall_speed R)) hrR
  simp only [mul_one] at hres
  rw [mul_neg, div_mul_cancel₀ _ (ne_of_gt hK)] at hres
  have h2 : ⌊(-2 : ℚ)⌋ = -2 := by
    have : ((-2 : ℤ) : ℚ) = -2 := by norm_num
    rw [← this, Int.floor_intCast]
  rw [hres, h2]
  constructor <;> norm_num

/-- C24 at a concrete environment: `demoEnv` and the radii `1` and `2`. -/
theorem C24_over_depletion_witness :
    ∃ N1 N2 dt : ℚ, 0 < N1 ∧ 0 < N2 ∧ 0 < dt ∧
      (((_collide demoEnv [⟨0, 0, N1, true, 1⟩, ⟨0, 0, N2, true, 2⟩] 0 2
          (List.replicate 2 SpMassTendencies.zero) 0 dt).getD 0 default).dN : ℚ) < -N1 ∧
      N1 + (((_collide demoEnv [⟨0, 0, N1, true, 1⟩, ⟨0, 0, N2, true, 2⟩] 0 2
          (List.replicate 2 SpMassTendencies.zero) 0 dt).getD 0 default).dN : ℚ) < 0 :=
  C24_over_depletion demoEnv (by norm_num [demoEnv]) (by intro a b; rfl) 1 2 (by norm_num)
    (by norm_num) (by norm_num [demoEnv])

/-! ## The floor of the count change for a short time step -/

/-- The floor of a number strictly between `-1` and `1` is `0` or `-1`. -/
theorem floor_small (x : ℚ) (h1 : -1 < x) (h2 : x < 1) : ⌊x⌋ = 0 ∨ ⌊x⌋ = -1 := by
  by_cases h : 0 ≤ x
  · left
    rw [Int.floor_eq_iff]
    exact ⟨by simpa using h, by simpa using h2⟩
  · right
    rw [Int.floor_eq_iff]
    push_neg at h
    exact ⟨by simpa using le_of_lt h1, by simpa using h⟩

/-- The water-content term with the un-floored count change `dt * rate` tends
to `0` with `dt`. -/
theorem tendsto_unfloored (C N M ρ : ℚ) :
    Filter.Tendsto (fun dt : ℚ => C * (N + dt * ρ) * (dt * M) / (1 - dt * ρ / N))
      (nhdsWithin 0 (Set.Ioi 0)) (nhds 0) := by
  apply tendsto_nhdsWithin_of_tendsto_nhds
  have hnum : Continuous (fun dt : ℚ => C * (N + dt * ρ) * (dt * M)) := by fun_prop
  have hden : Continuous (fun dt : ℚ => 1 - dt * ρ / N) := by fun_prop
  have hn0 : ContinuousAt (fun dt : ℚ => C * (N + dt * ρ) * (dt * M)) 0 := hnum.continuousAt
  have hd0 : ContinuousAt (fun dt : ℚ => 1 - dt * ρ / N) 0 := hden.continuousAt
  have h := (hn0.div hd0 (by simp)).tendsto
  simpa using h

/-- The water-content term with the floored count change tends to `0` as `dt`
tends to `0` from above: the floor is `0` or `-1` for a short time step, and
the term carries the factor `dt` of `mass`. -/
theorem tendsto_floored (C N M ρ : ℚ) :
    Filter.Tendsto
      (fun dt : ℚ => C * (N + ((⌊dt * ρ⌋ : ℤ) : ℚ)) * (dt * M) / (1 - ((⌊dt * ρ⌋ : ℤ) : ℚ) / N))
      (nhdsWithin 0 (Set.Ioi 0)) (nhds 0) := by
  have hB : ∀ dt : ℚ, dt ∈ Set.Ioo (0 : ℚ) (1 / (|ρ| + 1)) →
      |C * (N + ((⌊dt * ρ⌋ : ℤ) : ℚ)) * (dt * M) / (1 - ((⌊dt * ρ⌋ : ℤ) : ℚ) / N)| ≤
        dt * (|C * N * M / 1| + |C * (N + -1) * M / (1 - -1 / N)|) := by
    intro dt hdt
    have hpos : 0 < |ρ| + 1 := by positivity
    have hlt : dt * |ρ| < 1 := by
      have h1 : dt * (|ρ| + 1) < 1 := by
        have := hdt.2
        rwa [lt_div_iff₀ hpos] at this
      nlinarith [hdt.1, abs_nonneg ρ]
    have habs : |dt * ρ| < 1 := by
      rw [abs_mul, abs_of_pos hdt.1]
      exact hlt
    have hx := abs_lt.mp habs
    rcases floor_small (dt * ρ) hx.1 hx.2 with h | h
    · rw [h]
      have e : C * (N + ((0 : ℤ) : ℚ)) * (dt * M) / (1 - ((0 : ℤ) : ℚ) / N) =
          dt * (C * N * M / 1) := by
        simp
        ring
      rw [e, abs_mul, abs_of_pos hdt.1]
      have := abs_nonneg (C * (N + -1) * M / (1 - -1 / N))
      nlinarith [hdt.1, abs_nonneg (C * N * M / 1)]
    · rw [h]
      have e : C * (N + ((-1 : ℤ) : ℚ)) * (dt * M) / (1 - ((-1 : ℤ) : ℚ) / N) =
          dt * (C * (N + -1) * M / (1 - -1 / N)) := by
        push_cast
        ring
      rw [e, abs_mul, abs_of_pos hdt.1]
      have := abs_nonneg (C * N * M / 1)
      nlinarith [hdt.1, abs_nonneg (C * (N + -1) * M / (1 - -1 / N))]
  have hmem : Set.Ioo (0 : ℚ) (1 / (|ρ| + 1)) ∈ nhdsWithin (0 : ℚ) (Set.Ioi 0) :=
    Ioo_mem_nhdsWithin_Ioi' (by positivity)
  have hup : Filter.Tendsto
      (fun dt : ℚ => dt * (|C * N * M / 1| + |C * (N + -1) * M / (1 - -1 / N)|))
      (nhdsWithin 0 (Set.Ioi 0)) (nhds 0) := by
    apply tendsto_nhdsWithin_of_tendsto_nhds
    have hc : Continuous
        (fun dt : ℚ => dt * (|C * N * M / 1| + |C * (N + -1) * M / (1 - -1 / N)|)) := by
      fun_prop
    have hc0 : ContinuousAt
        (fun dt : ℚ => dt * (|C * N * M / 1| + |C * (N + -1) * M / (1 - -1 / N)|)) 0 :=
      hc.continuousAt
    simpa using hc0.tendsto
  have hlo : Filter.Tendsto
      (fun dt : ℚ => -(dt * (|C * N * M / 1| + |C * (N + -1) * M / (1 - -1 / N)|)))
      (nhdsWithin 0 (Set.Ioi 0)) (nhds 0) := by
    simpa using hup.neg
  refine tendsto_of_tendsto_of_tendsto_of_le_of_le' hlo hup ?_ ?_
  · exact Filter.eventually_of_mem hmem fun dt hdt => (abs_le.mp (hB dt hdt)).1
  · exact Filter.eventually_of_mem hmem fun dt hdt => (abs_le.mp (hB dt hdt)).2

/-- The difference of the two water-content changes of one particle, floored
against un-floored, tends to `0` as `dt` tends to `0` from above. -/
theorem tendsto_term (C N M ρ q : ℚ) :
    Filter.Tendsto
      (fun dt : ℚ =>
        (C * (N + ((⌊dt * ρ⌋ : ℤ) : ℚ)) * (dt * M) / (1 - ((⌊dt * ρ⌋ : ℤ) : ℚ) / N) - q) -
          (C * (N + dt * ρ) * (dt * M) / (1 - dt * ρ / N) - q))
      (nhdsWithin 0 (Set.Ioi 0)) (nhds 0) := by
  have h := (tendsto_floored C N M ρ).sub (tendsto_unfloored C N M ρ)
  rw [sub_zero] at h
  exact h.congr fun dt => by ring

/-- `mass(i)` is `dt` times the mass for the unit time step. -/
theorem mass_scale (env : Env) (sps : List Superparticle) (first last out : Nat) (dt : ℚ)
    (i : Nat) :
    (Collider.new env sps first last out dt).mass i =
      dt * (Collider.new env sps first last out 1).mass i := by
  unfold Collider.mass
  simp only []
  have h1 : (Collider.new env sps first last out 1).dt = 1 := rfl
  have hd : (Collider.new env sps first last out dt).dt = dt := rfl
  rw [h1, hd, one_mul]
  rfl

/-- The sum of `dqc` over the output slots of the slice, by sorted position:
the water-content change of `calculate` at the floored count change for every
position but the last, and `mass(pc - 1)` for the last. -/
theorem dqc_sum_eq (env : Env) (sps : List Superparticle) (first last out n : Nat) (dt : ℚ)
    (hpc : first + 2 ≤ last) (hout : out + (last - first) ≤ n) :
    dqc_sum env sps first last out n dt =
      (∑ i in Finset.range (last - first - 1),
        (Collider.new env sps first last out dt).dqc_of i
          (((Collider.new env sps first last out dt).weights i : ℤ) : ℚ)) +
      (Collider.new env sps first last out dt).mass (last - first - 1) := by
  have hlen : out + (last - first) ≤ (List.replicate n SpMassTendencies.zero).length := by
    simpa using hout
  have hinj := new_inj env sps first last out dt
  have hb := new_bound env sps first last out dt _ hlen
  have hpcv : (Collider.new env sps first last out dt).pc = last - first := rfl
  have ho : (Collider.new env sps first last out dt).out = out := rfl
  unfold dqc_sum
  rw [_collide_eq env sps first last _ out dt hpc]
  have hre : ∑ k in Finset.range (last - first),
        (((Collider.new env sps first last out dt).calculate
          (List.replicate n SpMassTendencies.zero)).getD (out + k) default).dqc =
      ∑ i in Finset.range (last - first),
        (((Collider.new env sps first last out dt).calculate
          (List.replicate n SpMassTendencies.zero)).getD
          (out + ((Collider.new env sps first last out dt).ri i).2) default).dqc := by
    symm
    apply Finset.sum_bij (fun i _ => ((Collider.new env sps first last out dt).ri i).2)
    · intro i hi
      rw [Finset.mem_range] at hi ⊢
      exact (ri_spec env sps first last out dt i hi).1
    · intro i hi j hj h
      rw [Finset.mem_range] at hi hj
      exact ri_snd_inj env sps first last out dt i j hi hj h
    · intro k hk
      rw [Finset.mem_range] at hk
      obtain ⟨i, hi, hik⟩ := ri_snd_surj env sps first last out dt k hk
      exact ⟨i, Finset.mem_range.mpr hi, hik⟩
    · intro i _
      rfl
  rw [hre]
  have hsplit : last - first = (last - first - 1) + 1 := by omega
  rw [hsplit, Finset.sum_range_succ]
  have hsplit2 : last - first - 1 + 1 - 1 = last - first - 1 := by omega
  rw [hsplit2]
  congr 1
  · apply Finset.sum_congr rfl
    intro i hi
    rw [Finset.mem_range] at hi
    have h := calculate_nonlast _ (List.replicate n SpMassTendencies.zero) hinj hb i
      (by rw [hpcv]; exact hi)
    unfold Collider.outAt at h
    rw [ho] at h
    rw [h]
    rfl
  · have h := calculate_last _ (List.replicate n SpMassTendencies.zero)
      (by rw [hpcv]; omega) hinj hb
    rw [hpcv] at h
    unfold Collider.outAt at h
    rw [ho] at h
    rw [h]

/-- C21. For a fixed slice of `pc ≥ 2` particles with positive multiplicities,
the difference between the sum of `dqc` over the slice, computed with the
floored `dN`, and the same sum computed with the un-floored count change
`dt * rate` tends to `0` as `dt` tends to `0` from above. -/
theorem C21_truncation_vanishes (env : Env) (sps : List Superparticle)
    (first last out n : Nat)
    (hpc : first + 2 ≤ last) (hout : out + (last - first) ≤ n)
    (_hN : ∀ m, m < last - first → 0 < (sps.getD (first + m) default).N) :
    Filter.Tendsto
      (fun dt : ℚ =>
        dqc_sum env sps first last out n dt - dqc_sum_unfloored env sps first last out dt)
      (nhdsWithin 0 (Set.Ioi 0)) (nhds 0) := by
  have hterm : ∀ i ∈ Finset.range (last - first - 1),
      Filter.Tendsto
        (fun dt : ℚ =>
          (Collider.new env sps first last out dt).dqc_of i
              (((Collider.new env sps first last out dt).weights i : ℤ) : ℚ) -
            (Collider.new env sps first last out dt).dqc_of i
              (dt * (Collider.new env sps first last out dt).rate i))
        (nhdsWithin 0 (Set.Ioi 0)) (nhds 0) := by
    intro i _
    refine (tendsto_term (4 / 3 * env.PI * env.RHO_H2O)
      ((Collider.new env sps first last out 1).particle i).N
      ((Collider.new env sps first last out 1).mass i)
      ((Collider.new env sps first last out 1).rate i)
      ((Collider.new env sps first last out 1).particle i).qc).congr ?_
    intro dt
    unfold Collider.dqc_of
    rw [mass_scale env sps first last out dt i, weights_eq_floor_rate]
    rfl
  have hsum := tendsto_finset_sum (Finset.range (last - first - 1)) hterm
  rw [Finset.sum_const_zero] at hsum
  refine hsum.congr ?_
  intro dt
  rw [dqc_sum_eq env sps first last out n dt hpc hout]
  unfold dqc_sum_unfloored
  rw [Finset.sum_sub_distrib]
  ring

/-- C21 at a concrete slice: `demoSlice`. -/
theorem C21_truncation_vanishes_witness :
    Filter.Tendsto
      (fun dt : ℚ =>
        dqc_sum demoEnv demoSlice 0 3 0 3 dt - dqc_sum_unfloored demoEnv demoSlice 0 3 0 dt)
      (nhdsWithin 0 (Set.Ioi 0)) (nhds 0) :=
  C21_truncation_vanishes demoEnv demoSlice 0 3 0 3 (by decide) (by decide)
    (by intro m hm; interval_cases m <;> norm_num [demoSlice])

end ColumnModel
